import Mathlib

/-
  Verification development for the red-black tree implementation in
  `Driver/Source Files/tree.c` / `tree.h`.

  Embedding notes.
  * The C tree is pointer-based with parent back-pointers.  We embed nodes as an
    inductive tree (`RbNode`); the parent chain of the node currently being
    processed by a fix-up loop is represented explicitly as a zipper path
    (`Path`): the list of ancestor entries from the node's parent up to the
    root.  `plug` reassembles the whole tree from a path and a focus subtree.
    An entry stores which side the focus hangs on (`dir`), the ancestor's
    colour, key, object identity, and the sibling subtree — exactly the data a
    parent pointer gives the C code access to.
  * The caller-supplied payload (`CHAR object[]`) is modelled as the key value
    (the part the comparator inspects) plus a numeric object identity `oid`
    modelling the address of `node->object` (object identity of live nodes).
  * The caller-supplied comparator (`RB_COMPARE`, an external collaborator per
    the spec) is instantiated by the canonical three-way comparison of a linear
    order, the spec's "strict total order" comparator contract.
  * `ExAllocateFromLookasideListEx` success/failure is an explicit `allocOk`
    argument to insert; `ExInitializeLookasideListEx` success is a `poolOk`
    argument to create.  `UINT32` counters wrap modulo 2^32 (`inc32`/`dec32`).
  * Locks and the interlocked primitives are a concurrency discipline of the
    callers; every structural operation executes with the lock held, so the
    embedding is the sequential semantics.
-/

set_option linter.unusedVariables false
set_option linter.unnecessarySeqFocus false

/-- Colour tag of a tree node (`typedef enum _COLOUR { red, black } COLOUR`). -/
inductive Colour : Type
  | red
  | black
deriving DecidableEq, Repr

/-- A tree node (`RB_TREE_NODE`): colour, left/right children, and the inline
payload modelled as the comparator-visible key plus the object identity `oid`.
`nil` is the null pointer.  The `parent` back-pointer is represented by the
zipper paths below, not stored in the node. -/
inductive RbNode (α : Type) : Type
  | nil : RbNode α
  | node (colour : Colour) (left : RbNode α) (key : α) (oid : Nat) (right : RbNode α) : RbNode α
deriving DecidableEq, Repr

/-- Comparator result `RB_TREE_EQUAL` (0). -/
def RB_TREE_EQUAL : Nat := 0

/-- Comparator result `RB_TREE_LESS_THAN` (1). -/
def RB_TREE_LESS_THAN : Nat := 1

/-- Comparator result `RB_TREE_GREATER_THAN` (2). -/
def RB_TREE_GREATER_THAN : Nat := 2

/-- The caller-supplied comparator `Tree->compare(Key, Object)`.  The spec's
comparator contract (§4.2) demands a strict (total) order on the stored keys;
we instantiate it with the canonical three-way comparison of a linear order. -/
def rbCompare {α : Type} [LinearOrder α] (Key Object : α) : Nat :=
  if Key < Object then RB_TREE_LESS_THAN
  else if Object < Key then RB_TREE_GREATER_THAN
  else RB_TREE_EQUAL

/-- The `RB_TREE` header: root pointer and the three volatile `UINT32`
counters.  `next_oid` models the allocator handing out fresh object addresses
for newly inserted nodes (distinct from all live ones).  The comparator, lock,
lookaside list and `object_size`/`active` fields are modelled externally. -/
structure RB_TREE (α : Type) : Type where
  root : RbNode α
  node_count : Nat
  insertion_count : Nat
  deletion_count : Nat
  next_oid : Nat
deriving DecidableEq, Repr

/-- Wrap-around increment of a volatile `UINT32` counter (`InterlockedIncrement`). -/
def inc32 (n : Nat) : Nat := (n + 1) % 4294967296

/-- Wrap-around decrement of a volatile `UINT32` counter (`InterlockedDecrement`). -/
def dec32 (n : Nat) : Nat := (n + 4294967295) % 4294967296

/-- Which side of its parent a focus subtree hangs on. -/
inductive Dir : Type
  | left
  | right
deriving DecidableEq, Repr

/-- One ancestor entry of a zipper path: the focus is the `dir` child of an
ancestor with the recorded colour, key, object identity, and other (sibling)
subtree. -/
structure PathEntry (α : Type) : Type where
  dir : Dir
  colour : Colour
  key : α
  oid : Nat
  sib : RbNode α
deriving DecidableEq, Repr

/-- A parent chain from a node's parent up to the root (head = immediate parent). -/
abbrev ZPath (α : Type) : Type := List (PathEntry α)

/-- Rebuild the node one level up from a path entry: the focus `t` is put on
the entry's recorded side, with the recorded colour `c`. -/
def link {α : Type} (e : PathEntry α) (c : Colour) (t : RbNode α) : RbNode α :=
  match e.dir with
  | .left => .node c t e.key e.oid e.sib
  | .right => .node c e.sib e.key e.oid t

/-- Reassemble the whole tree from a path and a focus subtree. -/
def plug {α : Type} : ZPath α → RbNode α → RbNode α
  | [], t => t
  | e :: p, t => plug p (link e e.colour t)

/-- Is this node non-null and red?  (The C idiom `n && n->colour == red`.) -/
def isRed {α : Type} : RbNode α → Bool
  | .node .red _ _ _ _ => true
  | _ => false

/-- Repaint the root of a subtree black (no-op on null). -/
def blacken {α : Type} : RbNode α → RbNode α
  | .nil => .nil
  | .node _ l k o r => .node .black l k o r

/-- Colour of the root of a subtree; null pointers count as black. -/
def rootColour {α : Type} : RbNode α → Colour
  | .nil => .black
  | .node c _ _ _ _ => c

/-- In-order list of (key, object identity) pairs of a subtree. -/
def inorder {α : Type} : RbNode α → List (α × Nat)
  | .nil => []
  | .node _ l k o r => inorder l ++ (k, o) :: inorder r

/-- Number of nodes reachable from (and including) this subtree root. -/
def sizeT {α : Type} : RbNode α → Nat
  | .nil => 0
  | .node _ l _ _ r => sizeT l + sizeT r + 1

/-- No red node has a red child anywhere in the subtree. -/
def nRR {α : Type} : RbNode α → Bool
  | .nil => true
  | .node c l _ _ r =>
    (match c with
     | .red => !isRed l && !isRed r
     | .black => true) && nRR l && nRR r

/-- Contribution of a node colour to black-height. -/
def cw (c : Colour) : Nat :=
  match c with
  | .red => 0
  | .black => 1

/-- Black-height of a subtree: `some h` if every root-to-null path contains the
same number `h` of black nodes (the root included), `none` if the subtree's
black-heights disagree along different paths. -/
def bhF {α : Type} : RbNode α → Option Nat
  | .nil => some 0
  | .node c l _ _ r =>
    match bhF l, bhF r with
    | some hl, some hr => if hl = hr then some (hl + cw c) else none
    | _, _ => none

/-- Keys of a list of entries, in order. -/
def keysOf {α : Type} (l : List (α × Nat)) : List α := l.map Prod.fst

/-- Entry lists sorted strictly ascending by key. -/
def sortedP {α : Type} [LinearOrder α] (l : List (α × Nat)) : Prop :=
  l.Pairwise (fun a b => a.1 < b.1)

instance sortedP_decidable {α : Type} [LinearOrder α] (l : List (α × Nat)) :
    Decidable (sortedP l) := by
  unfold sortedP
  infer_instance

/-- The red-black invariants of spec §3 for a tree root: root black when
non-empty, no red-red edge, uniform black-height, strictly ascending in-order
keys (BST ordering). -/
def RBValid {α : Type} [LinearOrder α] (t : RbNode α) : Prop :=
  rootColour t = .black ∧ nRR t = true ∧ (bhF t).isSome = true ∧ sortedP (inorder t)

/-- NTSTATUS values the tree code returns. -/
inductive NTSTATUS : Type
  | STATUS_SUCCESS
  | STATUS_INVALID_PARAMETER
  | STATUS_INSUFFICIENT_RESOURCES
deriving DecidableEq, Repr

/-- `RtlRbTreeCreate` (tree.c:120-150).  `ComparePresent` models
`ARGUMENT_PRESENT(Compare)`, `poolOk` models `ExInitializeLookasideListEx`
succeeding, and `Tree` is the caller-allocated `_Out_` structure with whatever
prior contents it had.  Faithful to the source: on success the three counters
are zeroed and the comparator and lock are set up, but `Tree->root` is never
assigned. -/
def RtlRbTreeCreate {α : Type} (ComparePresent : Bool) (ObjectSize : Nat) (poolOk : Bool)
    (Tree : RB_TREE α) : NTSTATUS × RB_TREE α :=
  if ¬ComparePresent ∨ ObjectSize = 0 then
    (.STATUS_INVALID_PARAMETER, Tree)
  else if ¬poolOk then
    (.STATUS_INSUFFICIENT_RESOURCES, Tree)
  else
    (.STATUS_SUCCESS,
      { Tree with deletion_count := 0, insertion_count := 0, node_count := 0 })

/-- The insertion fix-up loop `RtlpRbTreeFixupInsert` (tree.c:240-296), in
zipper form.  The focus subtree `t` is the loop's `Node`; the path is its
parent chain.  Loop condition: parent exists (path non-empty) and is red.
The rotations `RtlpRbTreeRotateLeft`/`RtlpRbTreeRotateRight` (tree.c:165-224)
are performed by rebuilding the affected local subtree.  After the loop the
root is repainted black (`Tree->root->colour = black`).

Two branches are unreachable for any tree this module builds and correspond to
undefined behaviour of the C code (a null-pointer dereference); they are
modelled as exiting the loop with the tree reassembled:
* parent red with no grandparent (the C code dereferences `grandparent`);
* a "zigzag" case with a null focus (the C rotation would dereference it). -/
def RtlpRbTreeFixupInsert {α : Type} : ZPath α → RbNode α → RbNode α
  | [], t => blacken t
  | pe :: rest, t =>
    match pe.colour with
    | .black =>
      -- parent black: loop exits; reassemble and force the root black
      blacken (plug (pe :: rest) t)
    | .red =>
      match rest with
      | [] =>
        -- unreachable: red parent that is the root (C dereferences a null
        -- grandparent here); modelled as loop exit
        blacken (plug [pe] t)
      | ge :: rest2 =>
        match ge.dir with
        | .left =>
          -- parent is grandparent->left; uncle = grandparent->right = ge.sib
          if isRed ge.sib then
            -- red uncle: recolour parent/uncle black, grandparent red,
            -- continue from the grandparent
            RtlpRbTreeFixupInsert rest2
              (.node .red (link pe .black t) ge.key ge.oid (blacken ge.sib))
          else
            match pe.dir with
            | .left =>
              -- outer child: parent black, grandparent red, rotate right at
              -- the grandparent; loop exits (new parent is black)
              blacken (plug rest2
                (.node .black t pe.key pe.oid (.node .red pe.sib ge.key ge.oid ge.sib)))
            | .right =>
              -- inner ("zigzag") child: left-rotate the parent first, then as
              -- in the outer case
              match t with
              | .nil => blacken (plug (pe :: ge :: rest2) t)  -- unreachable (C dereferences Node)
              | .node tc tl tk toid tr =>
                blacken (plug rest2
                  (.node .black (.node pe.colour pe.sib pe.key pe.oid tl) tk toid
                    (.node .red tr ge.key ge.oid ge.sib)))
        | .right =>
          -- mirrored: parent is grandparent->right; uncle = grandparent->left
          if isRed ge.sib then
            RtlpRbTreeFixupInsert rest2
              (.node .red (blacken ge.sib) ge.key ge.oid (link pe .black t))
          else
            match pe.dir with
            | .right =>
              blacken (plug rest2
                (.node .black (.node .red ge.sib ge.key ge.oid pe.sib) pe.key pe.oid t))
            | .left =>
              match t with
              | .nil => blacken (plug (pe :: ge :: rest2) t)  -- unreachable (C dereferences Node)
              | .node tc tl tk toid tr =>
                blacken (plug rest2
                  (.node .black (.node .red ge.sib ge.key ge.oid tl) tk toid
                    (.node pe.colour tr pe.key pe.oid pe.sib)))

/-- The binary-search descent of `RtlRbTreeInsertNode` (tree.c:343-362): walk
from the root comparing the key, recording the parent chain.  Returns the
insertion point's parent chain (`inl`, the `current == NULL` exit) or, if an
equal key is found, the existing node's object (`inr`). -/
def insertNodeDescend {α : Type} [LinearOrder α] (Key : α) :
    RbNode α → ZPath α → ZPath α ⊕ Nat
  | .nil, p => .inl p
  | .node c l k o r, p =>
    let result := rbCompare Key k
    if result = RB_TREE_LESS_THAN then
      insertNodeDescend Key l (⟨.left, c, k, o, r⟩ :: p)
    else if result = RB_TREE_GREATER_THAN then
      insertNodeDescend Key r (⟨.right, c, k, o, l⟩ :: p)
    else
      .inr o

/-- `RtlRbTreeInsertNode` (tree.c:325-378).  `allocOk` models the
`ExAllocateFromLookasideListEx` call succeeding; on failure the function
returns NULL (`none`) with the tree untouched.  A duplicate key frees the
fresh node again and returns the existing object with no other change.
Otherwise the new red node is linked at the descent's exit point, the fix-up
runs, and the insertion/node counters are bumped. -/
def RtlRbTreeInsertNode {α : Type} [LinearOrder α] (Tree : RB_TREE α) (Key : α)
    (allocOk : Bool) : Option Nat × RB_TREE α :=
  if ¬allocOk then
    (none, Tree)
  else
    match insertNodeDescend Key Tree.root [] with
    | .inr o => (some o, Tree)
    | .inl p =>
      let newNode : RbNode α := .node .red .nil Key Tree.next_oid .nil
      (some Tree.next_oid,
        { Tree with
            root := RtlpRbTreeFixupInsert p newNode
            insertion_count := inc32 Tree.insertion_count
            node_count := inc32 Tree.node_count
            next_oid := Tree.next_oid + 1 })

/-- `RtlpRbTreeFindNode` (tree.c:557-576) in zipper form: locate the node
whose stored object compares equal to the key, returning its parent chain and
fields (`RtlRbTreeDeleteNode` needs the parent chain, i.e. the parent
pointers, for the transplants and the fix-up). -/
def RtlpRbTreeFindNode {α : Type} [LinearOrder α] (Key : α) :
    RbNode α → ZPath α → Option (ZPath α × Colour × RbNode α × α × Nat × RbNode α)
  | .nil, _ => none
  | .node c l k o r, p =>
    let result := rbCompare Key k
    if result = RB_TREE_EQUAL then
      some (p, c, l, k, o, r)
    else if result = RB_TREE_LESS_THAN then
      RtlpRbTreeFindNode Key l (⟨.left, c, k, o, r⟩ :: p)
    else
      RtlpRbTreeFindNode Key r (⟨.right, c, k, o, l⟩ :: p)

/-- `RtlpRbTreeMinimum` (tree.c:401-409) in zipper form: walk `left` links
from the given (non-null) node, extending the given path, and return the
leftmost node's parent chain and fields (its left child is null by
construction, which the result type records). -/
def RtlpRbTreeMinimum {α : Type} :
    Colour → RbNode α → α → Nat → RbNode α → ZPath α →
      ZPath α × Colour × α × Nat × RbNode α
  | c, .nil, k, o, r, p => (p, c, k, o, r)
  | c, .node lc ll lk lo lr, k, o, r, p =>
    RtlpRbTreeMinimum lc ll lk lo lr (⟨.left, c, k, o, r⟩ :: p)

/-- The deletion fix-up loop `RtlpRbTreeFixupDelete` (tree.c:429-518), in
zipper form.  The focus `t` is the loop's `Node`, the path its parent chain.
Loop condition: `Node != Tree->root` (path non-empty) and `Node` black.  The
C code's red-sibling transform falls through into the same iteration's
remaining cases with the rotated zipper; that continuation is inlined here
(after it, case 2 exits the loop at once because the parent has become red).
Setting `Node = Tree->root` in the C code exits the loop, after which the
final `Node->colour = black` repaints the root.  One branch per side is
unreachable (case 3 with a null inner-sibling child: the C rotation would
dereference null) and is modelled as a loop exit. -/
def RtlpRbTreeFixupDelete {α : Type} : ZPath α → RbNode α → RbNode α
  | [], t => blacken t
  | pe :: rest, t =>
    if isRed t then
      -- loop exits (Node red); final statement repaints Node black
      plug (pe :: rest) (blacken t)
    else
      match pe.dir with
      | .left =>
        -- Node is parent->left; sibling = parent->right = pe.sib
        match pe.sib with
        | .nil =>
          -- all sibling-guarded cases skipped; Node = root, loop exits,
          -- root repainted black
          blacken (plug (pe :: rest) t)
        | .node .red sl sk so sr =>
          -- red sibling: sibling black, parent red, left-rotate parent;
          -- continue this iteration with sibling = sl under the red parent
          match sl with
          | .nil =>
            -- new sibling NULL: cases 2-4 skipped; Node = root, loop exits
            blacken (plug (⟨.left, .red, pe.key, pe.oid, .nil⟩ ::
              ⟨.left, .black, sk, so, sr⟩ :: rest) t)
          | .node c2 a xk xo b =>
            if !isRed a && !isRed b then
              -- case 2: sibling red; Node = parent (now red) exits the loop
              -- and is repainted black
              plug (⟨.left, .black, sk, so, sr⟩ :: rest)
                (.node .black t pe.key pe.oid (.node .red a xk xo b))
            else if !isRed b then
              -- case 3: blacken sibling->left, sibling red, right-rotate the
              -- sibling; then case 4; Node = root exits, root black
              match a with
              | .nil => blacken (plug (⟨.left, .red, pe.key, pe.oid, sl⟩ ::
                  ⟨.left, .black, sk, so, sr⟩ :: rest) t)  -- unreachable (C dereferences a)
              | .node ac al ak ao ar =>
                blacken (plug (⟨.left, .black, sk, so, sr⟩ :: rest)
                  (.node .red (.node .black t pe.key pe.oid al) ak ao
                    (.node .black ar xk xo b)))
            else
              -- case 4: sibling takes parent's colour (red), parent black,
              -- sibling->right black, left-rotate parent; Node = root exits
              blacken (plug (⟨.left, .black, sk, so, sr⟩ :: rest)
                (.node .red (.node .black t pe.key pe.oid a) xk xo (blacken b)))
        | .node .black a xk xo b =>
          if !isRed a && !isRed b then
            -- case 2: recolour sibling red, move the deficiency to the parent
            RtlpRbTreeFixupDelete rest
              (.node pe.colour t pe.key pe.oid (.node .red a xk xo b))
          else if !isRed b then
            match a with
            | .nil => blacken (plug (pe :: rest) t)  -- unreachable (C dereferences a)
            | .node ac al ak ao ar =>
              -- case 3 then case 4 with parent colour pe.colour
              blacken (plug rest
                (.node pe.colour (.node .black t pe.key pe.oid al) ak ao
                  (.node .black ar xk xo b)))
          else
            -- case 4 directly
            blacken (plug rest
              (.node pe.colour (.node .black t pe.key pe.oid a) xk xo (blacken b)))
      | .right =>
        -- mirrored: sibling = parent->left = pe.sib
        match pe.sib with
        | .nil =>
          blacken (plug (pe :: rest) t)
        | .node .red sl sk so sr =>
          -- red sibling: sibling black, parent red, right-rotate parent;
          -- continue with sibling = sr under the red parent
          match sr with
          | .nil =>
            blacken (plug (⟨.right, .red, pe.key, pe.oid, .nil⟩ ::
              ⟨.right, .black, sk, so, sl⟩ :: rest) t)
          | .node c2 a xk xo b =>
            if !isRed b && !isRed a then
              plug (⟨.right, .black, sk, so, sl⟩ :: rest)
                (.node .black (.node .red a xk xo b) pe.key pe.oid t)
            else if !isRed a then
              match b with
              | .nil => blacken (plug (⟨.right, .red, pe.key, pe.oid, sr⟩ ::
                  ⟨.right, .black, sk, so, sl⟩ :: rest) t)  -- unreachable (C dereferences b)
              | .node bc bl bk bo br =>
                blacken (plug (⟨.right, .black, sk, so, sl⟩ :: rest)
                  (.node .red (.node .black a xk xo bl) bk bo
                    (.node .black br pe.key pe.oid t)))
            else
              blacken (plug (⟨.right, .black, sk, so, sl⟩ :: rest)
                (.node .red (blacken a) xk xo (.node .black b pe.key pe.oid t)))
        | .node .black a xk xo b =>
          if !isRed b && !isRed a then
            RtlpRbTreeFixupDelete rest
              (.node pe.colour (.node .red a xk xo b) pe.key pe.oid t)
          else if !isRed a then
            match b with
            | .nil => blacken (plug (pe :: rest) t)  -- unreachable (C dereferences b)
            | .node bc bl bk bo br =>
              blacken (plug rest
                (.node pe.colour (.node .black a xk xo bl) bk bo
                  (.node .black br pe.key pe.oid t)))
          else
            blacken (plug rest
              (.node pe.colour (blacken a) xk xo (.node .black b pe.key pe.oid t)))

/-- `RtlRbTreeDeleteNode` (tree.c:598-650).  Locate the target; transplant the
single child (cases `!target->left` / `!target->right`) or the in-order
successor of the right subtree (two-children case; the C branches on
`successor->parent == target`, i.e. on the successor path being empty, but
both branches build the same tree: the successor node takes the target's
position, left subtree and colour, keeping its own right child, and the
successor's old slot is filled by its right child).  `colour` is the colour of
the physically excised node (target, or the successor in the two-children
case) and `child` its replacing subtree; the fix-up runs only when `colour`
is black and `child` is non-null.  Finally the deletion/node counters move. -/
def RtlRbTreeDeleteNode {α : Type} [LinearOrder α] (Tree : RB_TREE α) (Key : α) :
    RB_TREE α :=
  match RtlpRbTreeFindNode Key Tree.root [] with
  | none => Tree
  | some (p, tc, tl, tk, toid, tr) =>
    let root2 : RbNode α :=
      if tl = .nil then
        -- child = target->right; transplant it into the target's slot
        if tc = .black ∧ tr ≠ .nil then RtlpRbTreeFixupDelete p tr else plug p tr
      else if tr = .nil then
        -- child = target->left
        if tc = .black ∧ tl ≠ .nil then RtlpRbTreeFixupDelete p tl else plug p tl
      else
        match tr with
        | .nil => plug p tl  -- impossible: guarded by tr ≠ nil
        | .node rc rl rk ro rr =>
          match RtlpRbTreeMinimum rc rl rk ro rr [] with
          | (sp, sc, sk, so, sr) =>
            -- successor at path sp inside target->right; colour = successor's,
            -- child = successor->right; after both transplants the node in the
            -- target's slot is ⟨tc, tl, sk, so, tr minus the successor⟩
            if sc = .black ∧ sr ≠ .nil then
              RtlpRbTreeFixupDelete (sp ++ ⟨.right, tc, sk, so, tl⟩ :: p) sr
            else
              plug p (.node tc tl sk so (plug sp sr))
    { Tree with
        root := root2
        deletion_count := inc32 Tree.deletion_count
        node_count := dec32 Tree.node_count }

/-- The search loop of `RtlRbTreeFindNodeObject` (tree.c:655-673): purely
read-only descent returning the stored object of the node comparing equal. -/
def RtlRbTreeFindNodeObjectLoop {α : Type} [LinearOrder α] (Key : α) :
    RbNode α → Option Nat
  | .nil => none
  | .node c l k o r =>
    let result := rbCompare Key k
    if result = RB_TREE_EQUAL then some o
    else if result = RB_TREE_LESS_THAN then RtlRbTreeFindNodeObjectLoop Key l
    else RtlRbTreeFindNodeObjectLoop Key r

/-- `RtlRbTreeFindNodeObject` (tree.c:655-673).  The C function only reads the
tree (`current = current->left/right` walks), so the embedding is a pure
function of the tree state: the state after the call is the state passed in,
which is the frame part of claim C10. -/
def RtlRbTreeFindNodeObject {α : Type} [LinearOrder α] (Tree : RB_TREE α) (Key : α) :
    Option Nat :=
  RtlRbTreeFindNodeObjectLoop Key Tree.root

/-- The recursive traversal `RtlpRbTreeEnumerate` (tree.c:675-688): left
subtree, `Callback(Node->object, Context)`, right subtree.  Its value is the
trace of callback invocations, in order, each carrying the visited object. -/
def RtlpRbTreeEnumerate {α : Type} : RbNode α → List (α × Nat)
  | .nil => []
  | .node _ l k o r => RtlpRbTreeEnumerate l ++ (k, o) :: RtlpRbTreeEnumerate r

/-- `RtlRbTreeEnumerate` (tree.c:690-700): empty tree returns at once without
invoking the callback; otherwise the in-order traversal runs under the lock. -/
def RtlRbTreeEnumerate {α : Type} [DecidableEq α] (Tree : RB_TREE α) : List (α × Nat) :=
  if Tree.root = .nil then [] else RtlpRbTreeEnumerate Tree.root

/-- A caller-allocated `RB_TREE` structure zero-initialised (the state real
callers present to `RtlRbTreeCreate`), with the empty root. -/
def emptyTree (α : Type) : RB_TREE α :=
  { root := .nil, node_count := 0, insertion_count := 0, deletion_count := 0, next_oid := 0 }

/-- One structural operation on the tree: an insert attempt (with the given
allocation outcome) or a delete. -/
inductive RbOp (α : Type) : Type
  | ins (k : α) (allocOk : Bool)
  | del (k : α)
deriving DecidableEq, Repr

/-- Apply one operation to a tree state. -/
def applyOp {α : Type} [LinearOrder α] (st : RB_TREE α) : RbOp α → RB_TREE α
  | .ins k allocOk => (RtlRbTreeInsertNode st k allocOk).2
  | .del k => RtlRbTreeDeleteNode st k

/-- Run a sequence of insert/delete operations from the freshly created empty
tree. -/
def runOps {α : Type} [LinearOrder α] (ops : List (RbOp α)) : RB_TREE α :=
  ops.foldl applyOp (emptyTree α)

/-! Basic facts about colours, `blacken`, `link` and `plug`. -/

theorem isRed_false_iff {α : Type} (t : RbNode α) :
    isRed t = false ↔ rootColour t = .black := by
  cases t with
  | nil => simp [isRed, rootColour]
  | node c l k o r => cases c <;> simp [isRed, rootColour]

theorem isRed_true_iff {α : Type} (t : RbNode α) :
    isRed t = true ↔ rootColour t = .red := by
  cases t with
  | nil => simp [isRed, rootColour]
  | node c l k o r => cases c <;> simp [isRed, rootColour]

@[simp] theorem isRed_nil {α : Type} : isRed (RbNode.nil : RbNode α) = false := rfl

@[simp] theorem isRed_node_red {α : Type} (l : RbNode α) (k : α) (o : Nat) (r : RbNode α) :
    isRed (RbNode.node .red l k o r) = true := rfl

@[simp] theorem isRed_node_black {α : Type} (l : RbNode α) (k : α) (o : Nat) (r : RbNode α) :
    isRed (RbNode.node .black l k o r) = false := rfl

@[simp] theorem isRed_blacken {α : Type} (t : RbNode α) : isRed (blacken t) = false := by
  cases t <;> simp [isRed, blacken]

@[simp] theorem rootColour_blacken {α : Type} (t : RbNode α) :
    rootColour (blacken t) = .black := by
  cases t <;> simp [rootColour, blacken]

@[simp] theorem inorder_blacken {α : Type} (t : RbNode α) :
    inorder (blacken t) = inorder t := by
  cases t <;> simp [inorder, blacken]

theorem nRR_blacken {α : Type} (t : RbNode α) (h : nRR t = true) :
    nRR (blacken t) = true := by
  cases t with
  | nil => exact h
  | node c l k o r =>
    cases c <;> simp_all [nRR, blacken, Bool.and_eq_true]

theorem bhF_blacken {α : Type} (t : RbNode α) (h : (bhF t).isSome = true) :
    (bhF (blacken t)).isSome = true := by
  cases t with
  | nil => simp [blacken, bhF]
  | node c l k o r =>
    simp only [blacken, bhF] at h ⊢
    cases hl : bhF l with
    | none => rw [hl] at h; simp at h
    | some a =>
      cases hr : bhF r with
      | none => rw [hl, hr] at h; simp at h
      | some b =>
        rw [hl, hr] at h
        by_cases hab : a = b
        · subst hab; simp
        · simp [hab] at h

theorem rootColour_link {α : Type} (e : PathEntry α) (c : Colour) (t : RbNode α) :
    rootColour (link e c t) = c := by
  cases e with
  | mk d ec k o s => cases d <;> simp [link, rootColour]

@[simp] theorem inorder_link {α : Type} (e : PathEntry α) (c : Colour) (t : RbNode α) :
    inorder (link e c t) =
      (match e.dir with
       | .left => inorder t ++ (e.key, e.oid) :: inorder e.sib
       | .right => inorder e.sib ++ (e.key, e.oid) :: inorder t) := by
  cases e with
  | mk d ec k o s => cases d <;> simp [link, inorder]

theorem plug_append {α : Type} :
    ∀ (xs ys : ZPath α) (t : RbNode α), plug (xs ++ ys) t = plug ys (plug xs t) := by
  intro xs
  induction xs with
  | nil => intro ys t; simp [plug]
  | cons e p ih => intro ys t; simp [plug, ih]

/-- The in-order entries strictly to the left of a path's focus position. -/
def plugL {α : Type} : ZPath α → List (α × Nat)
  | [] => []
  | e :: p =>
    match e.dir with
    | .left => plugL p
    | .right => plugL p ++ inorder e.sib ++ [(e.key, e.oid)]

/-- The in-order entries strictly to the right of a path's focus position. -/
def plugR {α : Type} : ZPath α → List (α × Nat)
  | [] => []
  | e :: p =>
    match e.dir with
    | .left => (e.key, e.oid) :: inorder e.sib ++ plugR p
    | .right => plugR p

theorem inorder_plug {α : Type} :
    ∀ (p : ZPath α) (t : RbNode α),
      inorder (plug p t) = plugL p ++ inorder t ++ plugR p := by
  intro p
  induction p with
  | nil => intro t; simp [plug, plugL, plugR]
  | cons e p ih =>
    intro t
    cases e with
    | mk d ec k o s =>
      cases d <;> simp [plug, ih, link, inorder, plugL, plugR]

theorem plugL_append {α : Type} (xs ys : ZPath α) :
    plugL (xs ++ ys) = plugL ys ++ plugL xs := by
  induction xs with
  | nil => simp [plugL]
  | cons e p ih =>
    cases e with
    | mk d ec k o s => cases d <;> simp [plugL, ih]

theorem plugR_append {α : Type} (xs ys : ZPath α) :
    plugR (xs ++ ys) = plugR xs ++ plugR ys := by
  induction xs with
  | nil => simp [plugR]
  | cons e p ih =>
    cases e with
    | mk d ec k o s => cases d <;> simp [plugR, ih]

theorem rootColour_plug_indep {α : Type} :
    ∀ (p : ZPath α), p ≠ [] → ∀ (t t2 : RbNode α),
      rootColour (plug p t) = rootColour (plug p t2) := by
  intro p
  induction p with
  | nil => intro h; exact absurd rfl h
  | cons e p ih =>
    intro _ t t2
    by_cases hp : p = []
    · subst hp; simp [plug, rootColour_link]
    · simpa [plug] using ih hp (link e e.colour t) (link e e.colour t2)

theorem sizeT_eq_length_inorder {α : Type} :
    ∀ (t : RbNode α), sizeT t = (inorder t).length := by
  intro t
  induction t with
  | nil => simp [sizeT, inorder]
  | node c l k o r ihl ihr => simp [sizeT, inorder, ihl, ihr]; omega

/-! The insertion fix-up never changes the in-order entry sequence of the
reassembled tree, and always leaves the root black (every exit path runs
`Tree->root->colour = black`). -/

theorem fixupInsert_inorder {α : Type} :
    ∀ (p : ZPath α) (t : RbNode α),
      inorder (RtlpRbTreeFixupInsert p t) = plugL p ++ inorder t ++ plugR p := by
  intro p t
  induction p, t using RtlpRbTreeFixupInsert.induct with
  | case1 t => simp [RtlpRbTreeFixupInsert, plugL, plugR]
  | case2 e p t hc =>
    obtain ⟨ed, ec, ek, eo, es⟩ := e
    simp only [PathEntry.colour] at hc
    subst hc
    simp [RtlpRbTreeFixupInsert, inorder_plug]
  | case3 e t hc =>
    obtain ⟨ed, ec, ek, eo, es⟩ := e
    simp only [PathEntry.colour] at hc
    subst hc
    simp [RtlpRbTreeFixupInsert, inorder_plug]
  | case4 e t hc ge rest2 hd hu ih =>
    obtain ⟨ed, ec, ek, eo, es⟩ := e
    obtain ⟨gd, gc, gk, go, gs⟩ := ge
    simp only [PathEntry.colour, PathEntry.dir] at hc hd
    subst hc; subst hd
    cases ed <;>
      simp_all [RtlpRbTreeFixupInsert, inorder_plug, plugL, plugR, link, inorder]
  | case5 e t hc ge rest2 hd hu he =>
    obtain ⟨ed, ec, ek, eo, es⟩ := e
    obtain ⟨gd, gc, gk, go, gs⟩ := ge
    simp only [PathEntry.colour, PathEntry.dir] at hc hd he
    subst hc; subst hd; subst he
    simp_all [RtlpRbTreeFixupInsert, inorder_plug, plugL, plugR, link, inorder]
  | case6 e hc ge rest2 hd hu he =>
    obtain ⟨ed, ec, ek, eo, es⟩ := e
    obtain ⟨gd, gc, gk, go, gs⟩ := ge
    simp only [PathEntry.colour, PathEntry.dir] at hc hd he
    subst hc; subst hd; subst he
    simp_all [RtlpRbTreeFixupInsert, inorder_plug, plugL, plugR, link, inorder]
  | case7 e hc ge rest2 hd hu he tc tl tk toid tr =>
    obtain ⟨ed, ec, ek, eo, es⟩ := e
    obtain ⟨gd, gc, gk, go, gs⟩ := ge
    simp only [PathEntry.colour, PathEntry.dir] at hc hd he
    subst hc; subst hd; subst he
    simp_all [RtlpRbTreeFixupInsert, inorder_plug, plugL, plugR, link, inorder]
  | case8 e t hc ge rest2 hd hu ih =>
    obtain ⟨ed, ec, ek, eo, es⟩ := e
    obtain ⟨gd, gc, gk, go, gs⟩ := ge
    simp only [PathEntry.colour, PathEntry.dir] at hc hd
    subst hc; subst hd
    cases ed <;>
      simp_all [RtlpRbTreeFixupInsert, inorder_plug, plugL, plugR, link, inorder]
  | case9 e t hc ge rest2 hd hu he =>
    obtain ⟨ed, ec, ek, eo, es⟩ := e
    obtain ⟨gd, gc, gk, go, gs⟩ := ge
    simp only [PathEntry.colour, PathEntry.dir] at hc hd he
    subst hc; subst hd; subst he
    simp_all [RtlpRbTreeFixupInsert, inorder_plug, plugL, plugR, link, inorder]
  | case10 e hc ge rest2 hd hu he =>
    obtain ⟨ed, ec, ek, eo, es⟩ := e
    obtain ⟨gd, gc, gk, go, gs⟩ := ge
    simp only [PathEntry.colour, PathEntry.dir] at hc hd he
    subst hc; subst hd; subst he
    simp_all [RtlpRbTreeFixupInsert, inorder_plug, plugL, plugR, link, inorder]
  | case11 e hc ge rest2 hd hu he tc tl tk toid tr =>
    obtain ⟨ed, ec, ek, eo, es⟩ := e
    obtain ⟨gd, gc, gk, go, gs⟩ := ge
    simp only [PathEntry.colour, PathEntry.dir] at hc hd he
    subst hc; subst hd; subst he
    simp_all [RtlpRbTreeFixupInsert, inorder_plug, plugL, plugR, link, inorder]

theorem fixupInsert_rootBlack {α : Type} :
    ∀ (p : ZPath α) (t : RbNode α),
      rootColour (RtlpRbTreeFixupInsert p t) = .black := by
  intro p t
  induction p, t using RtlpRbTreeFixupInsert.induct with
  | case1 t => simp [RtlpRbTreeFixupInsert]
  | case2 e p t hc =>
    obtain ⟨ed, ec, ek, eo, es⟩ := e
    simp only [PathEntry.colour] at hc
    subst hc
    simp [RtlpRbTreeFixupInsert]
  | case3 e t hc =>
    obtain ⟨ed, ec, ek, eo, es⟩ := e
    simp only [PathEntry.colour] at hc
    subst hc
    simp [RtlpRbTreeFixupInsert]
  | case4 e t hc ge rest2 hd hu ih =>
    obtain ⟨ed, ec, ek, eo, es⟩ := e
    obtain ⟨gd, gc, gk, go, gs⟩ := ge
    simp only [PathEntry.colour, PathEntry.dir] at hc hd
    subst hc; subst hd
    simp_all [RtlpRbTreeFixupInsert]
  | case5 e t hc ge rest2 hd hu he =>
    obtain ⟨ed, ec, ek, eo, es⟩ := e
    obtain ⟨gd, gc, gk, go, gs⟩ := ge
    simp only [PathEntry.colour, PathEntry.dir] at hc hd he
    subst hc; subst hd; subst he
    simp_all [RtlpRbTreeFixupInsert]
  | case6 e hc ge rest2 hd hu he =>
    obtain ⟨ed, ec, ek, eo, es⟩ := e
    obtain ⟨gd, gc, gk, go, gs⟩ := ge
    simp only [PathEntry.colour, PathEntry.dir] at hc hd he
    subst hc; subst hd; subst he
    simp_all [RtlpRbTreeFixupInsert]
  | case7 e hc ge rest2 hd hu he tc tl tk toid tr =>
    obtain ⟨ed, ec, ek, eo, es⟩ := e
    obtain ⟨gd, gc, gk, go, gs⟩ := ge
    simp only [PathEntry.colour, PathEntry.dir] at hc hd he
    subst hc; subst hd; subst he
    simp_all [RtlpRbTreeFixupInsert]
  | case8 e t hc ge rest2 hd hu ih =>
    obtain ⟨ed, ec, ek, eo, es⟩ := e
    obtain ⟨gd, gc, gk, go, gs⟩ := ge
    simp only [PathEntry.colour, PathEntry.dir] at hc hd
    subst hc; subst hd
    simp_all [RtlpRbTreeFixupInsert]
  | case9 e t hc ge rest2 hd hu he =>
    obtain ⟨ed, ec, ek, eo, es⟩ := e
    obtain ⟨gd, gc, gk, go, gs⟩ := ge
    simp only [PathEntry.colour, PathEntry.dir] at hc hd he
    subst hc; subst hd; subst he
    simp_all [RtlpRbTreeFixupInsert]
  | case10 e hc ge rest2 hd hu he =>
    obtain ⟨ed, ec, ek, eo, es⟩ := e
    obtain ⟨gd, gc, gk, go, gs⟩ := ge
    simp only [PathEntry.colour, PathEntry.dir] at hc hd he
    subst hc; subst hd; subst he
    simp_all [RtlpRbTreeFixupInsert]
  | case11 e hc ge rest2 hd hu he tc tl tk toid tr =>
    obtain ⟨ed, ec, ek, eo, es⟩ := e
    obtain ⟨gd, gc, gk, go, gs⟩ := ge
    simp only [PathEntry.colour, PathEntry.dir] at hc hd he
    subst hc; subst hd; subst he
    simp_all [RtlpRbTreeFixupInsert]

theorem rbCompare_eq_of_lt {α : Type} [LinearOrder α] {k o : α} (h : k < o) :
    rbCompare k o = RB_TREE_LESS_THAN := by
  simp [rbCompare, h]

theorem rbCompare_eq_of_gt {α : Type} [LinearOrder α] {k o : α} (h : o < k) :
    rbCompare k o = RB_TREE_GREATER_THAN := by
  simp [rbCompare, h, not_lt_of_gt h, RB_TREE_LESS_THAN, RB_TREE_GREATER_THAN]

theorem rbCompare_eq_of_eq {α : Type} [LinearOrder α] {k : α} :
    rbCompare k k = RB_TREE_EQUAL := by
  simp [rbCompare, RB_TREE_EQUAL]

theorem insertNodeDescend_inl_plug {α : Type} [LinearOrder α] (Key : α) :
    ∀ (t : RbNode α) (q p : ZPath α),
      insertNodeDescend Key t q = .inl p → plug p .nil = plug q t := by
  intro t
  induction t with
  | nil =>
    intro q p h
    simp [insertNodeDescend] at h
    subst h; rfl
  | node c l k o r ihl ihr =>
    intro q p h
    rcases lt_trichotomy Key k with hlt | heq | hgt
    · rw [insertNodeDescend] at h
      simp only [rbCompare_eq_of_lt hlt, if_pos rfl] at h
      have := ihl _ _ h
      simpa [plug, link] using this
    · subst heq
      rw [insertNodeDescend] at h
      simp [rbCompare_eq_of_eq, RB_TREE_EQUAL, RB_TREE_LESS_THAN, RB_TREE_GREATER_THAN] at h
    · rw [insertNodeDescend] at h
      simp only [rbCompare_eq_of_gt hgt, RB_TREE_GREATER_THAN, RB_TREE_LESS_THAN] at h
      norm_num at h
      have := ihr _ _ h
      simpa [plug, link] using this

theorem insertNodeDescend_inl_decomp {α : Type} [LinearOrder α] (Key : α) :
    ∀ (t : RbNode α) (q p : ZPath α),
      insertNodeDescend Key t q = .inl p →
      ∃ A B, inorder t = A ++ B ∧ plugL p = plugL q ++ A ∧ plugR p = B ++ plugR q ∧
        (sortedP (inorder t) → (∀ x ∈ A, x.1 < Key) ∧ (∀ x ∈ B, Key < x.1)) := by
  intro t
  induction t with
  | nil =>
    intro q p h
    simp [insertNodeDescend] at h
    subst h
    exact ⟨[], [], by simp [inorder]⟩
  | node c l k o r ihl ihr =>
    intro q p h
    rcases lt_trichotomy Key k with hlt | heq | hgt
    · rw [insertNodeDescend] at h
      simp only [rbCompare_eq_of_lt hlt, if_pos rfl] at h
      obtain ⟨A, B, hAB, hL, hR, hb⟩ := ihl _ _ h
      refine ⟨A, B ++ (k, o) :: inorder r, ?_, ?_, ?_, ?_⟩
      · simp [inorder, hAB]
      · simpa [plugL] using hL
      · simp [plugR, hR]
      · intro hs
        have hsl : sortedP (inorder l) := by
          simp only [sortedP, inorder, List.pairwise_append] at hs
          exact hs.1
        obtain ⟨hA, hB⟩ := hb hsl
        refine ⟨hA, ?_⟩
        intro x hx
        rcases List.mem_append.1 hx with hx | hx
        · exact hB x hx
        · rcases List.mem_cons.1 hx with hx | hx
          · subst hx; exact hlt
          · -- x ∈ inorder r: k < x.1 from sortedness of (k,o) :: inorder r
            have : (inorder l ++ (k, o) :: inorder r).Pairwise (fun a b => a.1 < b.1) := hs
            rw [List.pairwise_append] at this
            have hkx : k < x.1 := by
              have := this.2.1
              rw [List.pairwise_cons] at this
              exact this.1 x hx
            exact lt_trans hlt hkx
    · subst heq
      rw [insertNodeDescend] at h
      simp [rbCompare_eq_of_eq, RB_TREE_EQUAL, RB_TREE_LESS_THAN, RB_TREE_GREATER_THAN] at h
    · rw [insertNodeDescend] at h
      simp only [rbCompare_eq_of_gt hgt, RB_TREE_GREATER_THAN, RB_TREE_LESS_THAN] at h
      norm_num at h
      obtain ⟨A, B, hAB, hL, hR, hb⟩ := ihr _ _ h
      refine ⟨inorder l ++ (k, o) :: A, B, ?_, ?_, ?_, ?_⟩
      · simp [inorder, hAB]
      · simp [plugL, hL]
      · simpa [plugR] using hR
      · intro hs
        have hsr : sortedP (inorder r) := by
          simp only [sortedP, inorder, List.pairwise_append, List.pairwise_cons] at hs
          exact hs.2.1.2
        obtain ⟨hA, hB⟩ := hb hsr
        refine ⟨?_, hB⟩
        intro x hx
        rcases List.mem_append.1 hx with hx | hx
        · -- x ∈ inorder l: x.1 < k < Key
          have : (inorder l ++ (k, o) :: inorder r).Pairwise (fun a b => a.1 < b.1) := hs
          rw [List.pairwise_append] at this
          have hxk : x.1 < k := this.2.2 x hx (k, o) (List.mem_cons_self _ _)
          exact lt_trans hxk hgt
        · rcases List.mem_cons.1 hx with hx | hx
          · subst hx; exact hgt
          · exact hA x hx

theorem insertNodeDescend_inr_mem {α : Type} [LinearOrder α] (Key : α) :
    ∀ (t : RbNode α) (q : ZPath α) (o : Nat),
      insertNodeDescend Key t q = .inr o → (Key, o) ∈ inorder t := by
  intro t
  induction t with
  | nil => intro q o h; simp [insertNodeDescend] at h
  | node c l k o2 r ihl ihr =>
    intro q o h
    rcases lt_trichotomy Key k with hlt | heq | hgt
    · rw [insertNodeDescend] at h
      simp only [rbCompare_eq_of_lt hlt, if_pos rfl] at h
      simp [inorder]
      exact Or.inl (ihl _ _ h)
    · subst heq
      rw [insertNodeDescend] at h
      simp [rbCompare_eq_of_eq, RB_TREE_EQUAL, RB_TREE_LESS_THAN, RB_TREE_GREATER_THAN] at h
      subst h
      simp [inorder]
    · rw [insertNodeDescend] at h
      simp only [rbCompare_eq_of_gt hgt, RB_TREE_GREATER_THAN, RB_TREE_LESS_THAN] at h
      norm_num at h
      simp [inorder]
      exact Or.inr (Or.inr (ihr _ _ h))

theorem insertNodeDescend_mem_inr {α : Type} [LinearOrder α] (Key : α) :
    ∀ (t : RbNode α) (q : ZPath α) (o : Nat), sortedP (inorder t) →
      (Key, o) ∈ inorder t → insertNodeDescend Key t q = .inr o := by
  intro t
  induction t with
  | nil => intro q o _ h; simp [inorder] at h
  | node c l k o2 r ihl ihr =>
    intro q o hs hm
    have hs2 := hs
    simp only [sortedP, inorder, List.pairwise_append, List.pairwise_cons] at hs2
    rcases lt_trichotomy Key k with hlt | heq | hgt
    · rw [insertNodeDescend]
      simp only [rbCompare_eq_of_lt hlt, if_pos rfl]
      apply ihl _ _ hs2.1
      -- membership must be in the left subtree
      simp only [inorder, List.mem_append, List.mem_cons] at hm
      rcases hm with hm | hm | hm
      · exact hm
      · exfalso; rw [Prod.ext_iff] at hm; exact absurd hm.1 (ne_of_lt hlt)
      · exfalso
        have := hs2.2.1.1 _ hm
        exact absurd (lt_trans hlt this) (lt_irrefl Key)
    · subst heq
      rw [insertNodeDescend]
      simp only [rbCompare_eq_of_eq, RB_TREE_EQUAL, RB_TREE_LESS_THAN, RB_TREE_GREATER_THAN]
      norm_num
      simp only [inorder, List.mem_append, List.mem_cons] at hm
      rcases hm with hm | hm | hm
      · exfalso
        have := hs2.2.2 _ hm (Key, o2) (List.mem_cons_self _ _)
        simp at this
      · have ho : o = o2 := (Prod.ext_iff.1 hm).2
        rw [ho]
      · exfalso
        have := hs2.2.1.1 _ hm
        simp at this
    · rw [insertNodeDescend]
      simp only [rbCompare_eq_of_gt hgt, RB_TREE_GREATER_THAN, RB_TREE_LESS_THAN]
      norm_num
      apply ihr _ _ hs2.2.1.2
      simp only [inorder, List.mem_append, List.mem_cons] at hm
      rcases hm with hm | hm | hm
      · exfalso
        have := hs2.2.2 _ hm (k, o2) (List.mem_cons_self _ _)
        exact absurd (lt_trans this hgt) (lt_irrefl Key)
      · exfalso; rw [Prod.ext_iff] at hm; exact absurd hm.1 (ne_of_gt hgt)
      · exact hm

set_option maxHeartbeats 1000000 in
theorem fixupDelete_inorder {α : Type} :
    ∀ (p : ZPath α) (t : RbNode α),
      inorder (RtlpRbTreeFixupDelete p t) = plugL p ++ inorder t ++ plugR p := by
  intro p t
  induction p, t using RtlpRbTreeFixupDelete.induct with
  | case1 t => simp [RtlpRbTreeFixupDelete, plugL, plugR]
  | case2 e p t h =>
    rw [RtlpRbTreeFixupDelete, if_pos h]
    simp [inorder_plug]
  | case3 e p t h1 hd hsib =>
    rw [RtlpRbTreeFixupDelete]
    simp [h1, hd, hsib, inorder_plug, plugL, plugR, inorder]
  | case4 e p t h1 hd sk so sr hsib =>
    rw [RtlpRbTreeFixupDelete]
    simp [h1, hd, hsib, inorder_plug, plugL, plugR, inorder]
  | case5 e p t h1 hd sk so sr a a1 a2 a3 a4 hc hsib =>
    rw [RtlpRbTreeFixupDelete]
    simp [h1, hd, hsib, hc, inorder_plug, plugL, plugR, inorder]
  | case6 e p t h1 hd sk so sr a a1 a2 a3 hb hne hsib =>
    exact absurd (by simp [hb]) hne
  | case7 e p t h1 hd sk so sr a a1 a2 a3 hb a4 a5 a6 a7 a8 hne hsib =>
    rw [RtlpRbTreeFixupDelete]
    have hra : isRed (RbNode.node a4 a5 a6 a7 a8) = true := by
      cases hx : isRed (RbNode.node a4 a5 a6 a7 a8)
      · exact absurd (by simp [hx, hb]) hne
      · rfl
    simp [h1, hd, hsib, hb, hra, inorder_plug, plugL, plugR, inorder]
  | case8 e p t h1 hd sk so sr a a1 a2 a3 a4 hne1 hne2 hsib =>
    rw [RtlpRbTreeFixupDelete]
    simp [h1, hd, hsib, hne1, hne2, inorder_plug, plugL, plugR, inorder]
  | case9 e p t h1 hd a xk xo b hsib hc ih =>
    rw [RtlpRbTreeFixupDelete]
    simp [h1, hd, hsib, hc, ih, inorder_plug, plugL, plugR, inorder]
  | case10 e p t h1 hd xk xo b hb hsib hne =>
    exact absurd (by simp [hb]) hne
  | case11 e p t h1 hd xk xo b hb a a1 a2 a3 a4 hsib hne =>
    rw [RtlpRbTreeFixupDelete]
    have hra : isRed (RbNode.node a a1 a2 a3 a4) = true := by
      cases hx : isRed (RbNode.node a a1 a2 a3 a4)
      · exact absurd (by simp [hx, hb]) hne
      · rfl
    simp [h1, hd, hsib, hb, hra, inorder_plug, plugL, plugR, inorder]
  | case12 e p t h1 hd a xk xo b hsib hne1 hne2 =>
    rw [RtlpRbTreeFixupDelete]
    simp [h1, hd, hsib, hne1, hne2, inorder_plug, plugL, plugR, inorder]
  | case13 e p t h1 hd hsib =>
    rw [RtlpRbTreeFixupDelete]
    simp [h1, hd, hsib, inorder_plug, plugL, plugR, inorder]
  | case14 e p t h1 hd sl sk so hsib =>
    rw [RtlpRbTreeFixupDelete]
    simp [h1, hd, hsib, inorder_plug, plugL, plugR, inorder]
  | case15 e p t h1 hd sl sk so a a1 a2 a3 a4 hc hsib =>
    rw [RtlpRbTreeFixupDelete]
    simp [h1, hd, hsib, hc, inorder_plug, plugL, plugR, inorder]
  | case16 e p t h1 hd sl sk so a a1 a2 a3 hb hne hsib =>
    exact absurd (by simp [hb]) hne
  | case17 e p t h1 hd sl sk so a a1 a2 a3 hb a4 a5 a6 a7 a8 hne hsib =>
    rw [RtlpRbTreeFixupDelete]
    have hra : isRed (RbNode.node a4 a5 a6 a7 a8) = true := by
      cases hx : isRed (RbNode.node a4 a5 a6 a7 a8)
      · exact absurd (by simp [hx, hb]) hne
      · rfl
    simp [h1, hd, hsib, hb, hra, inorder_plug, plugL, plugR, inorder]
  | case18 e p t h1 hd sl sk so a a1 a2 a3 a4 hne1 hne2 hsib =>
    rw [RtlpRbTreeFixupDelete]
    simp [h1, hd, hsib, hne1, hne2, inorder_plug, plugL, plugR, inorder]
  | case19 e p t h1 hd a xk xo b hsib hc ih =>
    rw [RtlpRbTreeFixupDelete]
    simp [h1, hd, hsib, hc, ih, inorder_plug, plugL, plugR, inorder]
  | case20 e p t h1 hd a xk xo hb hsib hne =>
    exact absurd (by simp [hb]) hne
  | case21 e p t h1 hd a xk xo hb a1 a2 a3 a4 a5 hsib hne =>
    rw [RtlpRbTreeFixupDelete]
    have hra : isRed (RbNode.node a1 a2 a3 a4 a5) = true := by
      cases hx : isRed (RbNode.node a1 a2 a3 a4 a5)
      · exact absurd (by simp [hx, hb]) hne
      · rfl
    simp [h1, hd, hsib, hb, hra, inorder_plug, plugL, plugR, inorder]
  | case22 e p t h1 hd a xk xo b hsib hne1 hne2 =>
    rw [RtlpRbTreeFixupDelete]
    simp [h1, hd, hsib, hne1, hne2, inorder_plug, plugL, plugR, inorder]

theorem rootColour_plug_swap {α : Type} (p : ZPath α) (X Y : RbNode α)
    (hXY : rootColour X = rootColour Y) :
    rootColour (plug p X) = rootColour (plug p Y) := by
  cases p with
  | nil => exact hXY
  | cons f q => exact rootColour_plug_indep (f :: q) (by simp) X Y

theorem rootColour_plug_black_focus {α : Type} (p : ZPath α) (X Y : RbNode α)
    (h : rootColour (plug p Y) = .black) (hX : rootColour X = .black) :
    rootColour (plug p X) = .black := by
  cases p with
  | nil => exact hX
  | cons f q => rw [rootColour_plug_indep (f :: q) (by simp) X Y]; exact h

set_option maxHeartbeats 1000000 in
theorem fixupDelete_rootBlack {α : Type} :
    ∀ (p : ZPath α) (t : RbNode α), rootColour (plug p t) = .black →
      rootColour (RtlpRbTreeFixupDelete p t) = .black := by
  intro p t
  induction p, t using RtlpRbTreeFixupDelete.induct with
  | case1 t => intro h; simp [RtlpRbTreeFixupDelete]
  | case2 e p t h =>
    intro hb
    rw [RtlpRbTreeFixupDelete, if_pos h]
    exact rootColour_plug_black_focus _ _ _ hb (by simp)
  | case3 e p t h1 hd hsib =>
    intro hb; rw [RtlpRbTreeFixupDelete]; simp [h1, hd, hsib]
  | case4 e p t h1 hd sk so sr hsib =>
    intro hb; rw [RtlpRbTreeFixupDelete]; simp [h1, hd, hsib]
  | case5 e p t h1 hd sk so sr a a1 a2 a3 a4 hc hsib =>
    intro hb
    rw [RtlpRbTreeFixupDelete]
    simp only [h1, hd, hsib, hc, if_neg, if_pos, Bool.not_eq_true, plug]
    simp only [plug] at hb
    simp [plug, link]
    exact rootColour_plug_black_focus _ _ _ hb rfl
  | case6 e p t h1 hd sk so sr a a1 a2 a3 hb hne hsib =>
    exact absurd (by simp [hb]) hne
  | case7 e p t h1 hd sk so sr a a1 a2 a3 hb a4 a5 a6 a7 a8 hne hsib =>
    intro h0
    rw [RtlpRbTreeFixupDelete]
    have hra : isRed (RbNode.node a4 a5 a6 a7 a8) = true := by
      cases hx : isRed (RbNode.node a4 a5 a6 a7 a8)
      · exact absurd (by simp [hx, hb]) hne
      · rfl
    simp [h1, hd, hsib, hb, hra]
  | case8 e p t h1 hd sk so sr a a1 a2 a3 a4 hne1 hne2 hsib =>
    intro h0; rw [RtlpRbTreeFixupDelete]; simp [h1, hd, hsib, hne1, hne2]
  | case9 e p t h1 hd a xk xo b hsib hc ih =>
    intro h0
    rw [RtlpRbTreeFixupDelete, if_neg h1]
    simp only [hd, hsib]
    rw [if_pos hc]
    simp [plug] at h0
    apply ih
    have heq : rootColour (RbNode.node e.colour t e.key e.oid (RbNode.node Colour.red a xk xo b)) =
        rootColour (link e e.colour t) := by
      rw [rootColour_link]
      rfl
    rw [rootColour_plug_swap p _ _ heq]
    exact h0
  | case10 e p t h1 hd xk xo b hb hsib hne =>
    exact absurd (by simp [hb]) hne
  | case11 e p t h1 hd xk xo b hb a a1 a2 a3 a4 hsib hne =>
    intro h0
    rw [RtlpRbTreeFixupDelete]
    have hra : isRed (RbNode.node a a1 a2 a3 a4) = true := by
      cases hx : isRed (RbNode.node a a1 a2 a3 a4)
      · exact absurd (by simp [hx, hb]) hne
      · rfl
    simp [h1, hd, hsib, hb, hra]
  | case12 e p t h1 hd a xk xo b hsib hne1 hne2 =>
    intro h0; rw [RtlpRbTreeFixupDelete]; simp [h1, hd, hsib, hne1, hne2]
  | case13 e p t h1 hd hsib =>
    intro hb; rw [RtlpRbTreeFixupDelete]; simp [h1, hd, hsib]
  | case14 e p t h1 hd sl sk so hsib =>
    intro hb; rw [RtlpRbTreeFixupDelete]; simp [h1, hd, hsib]
  | case15 e p t h1 hd sl sk so a a1 a2 a3 a4 hc hsib =>
    intro hb
    rw [RtlpRbTreeFixupDelete]
    simp only [h1, hd, hsib, hc, if_neg, if_pos, Bool.not_eq_true, plug]
    simp only [plug] at hb
    simp [plug, link]
    exact rootColour_plug_black_focus _ _ _ hb rfl
  | case16 e p t h1 hd sl sk so a a1 a2 a3 hb hne hsib =>
    exact absurd (by simp [hb]) hne
  | case17 e p t h1 hd sl sk so a a1 a2 a3 hb a4 a5 a6 a7 a8 hne hsib =>
    intro h0
    rw [RtlpRbTreeFixupDelete]
    have hra : isRed (RbNode.node a4 a5 a6 a7 a8) = true := by
      cases hx : isRed (RbNode.node a4 a5 a6 a7 a8)
      · exact absurd (by simp [hx, hb]) hne
      · rfl
    simp [h1, hd, hsib, hb, hra]
  | case18 e p t h1 hd sl sk so a a1 a2 a3 a4 hne1 hne2 hsib =>
    intro h0; rw [RtlpRbTreeFixupDelete]; simp [h1, hd, hsib, hne1, hne2]
  | case19 e p t h1 hd a xk xo b hsib hc ih =>
    intro h0
    rw [RtlpRbTreeFixupDelete, if_neg h1]
    simp only [hd, hsib]
    rw [if_pos hc]
    simp [plug] at h0
    apply ih
    have heq : rootColour (RbNode.node e.colour (RbNode.node Colour.red a xk xo b) e.key e.oid t) =
        rootColour (link e e.colour t) := by
      rw [rootColour_link]
      rfl
    rw [rootColour_plug_swap p _ _ heq]
    exact h0
  | case20 e p t h1 hd a xk xo hb hsib hne =>
    exact absurd (by simp [hb]) hne
  | case21 e p t h1 hd a xk xo hb a1 a2 a3 a4 a5 hsib hne =>
    intro h0
    rw [RtlpRbTreeFixupDelete]
    have hra : isRed (RbNode.node a1 a2 a3 a4 a5) = true := by
      cases hx : isRed (RbNode.node a1 a2 a3 a4 a5)
      · exact absurd (by simp [hx, hb]) hne
      · rfl
    simp [h1, hd, hsib, hb, hra]
  | case22 e p t h1 hd a xk xo b hsib hne1 hne2 =>
    intro h0; rw [RtlpRbTreeFixupDelete]; simp [h1, hd, hsib, hne1, hne2]

theorem findNode_some {α : Type} [LinearOrder α] (Key : α) :
    ∀ (t : RbNode α) (q p : ZPath α) (c : Colour) (l : RbNode α) (k2 : α) (o : Nat) (r : RbNode α),
      RtlpRbTreeFindNode Key t q = some (p, c, l, k2, o, r) →
      k2 = Key ∧ plug p (.node c l k2 o r) = plug q t := by
  intro t
  induction t with
  | nil => intro q p c l k2 o r h; simp [RtlpRbTreeFindNode] at h
  | node tc tl tk toid tr ihl ihr =>
    intro q p c l k2 o r h
    rcases lt_trichotomy Key tk with hlt | heq | hgt
    · rw [RtlpRbTreeFindNode] at h
      simp only [rbCompare_eq_of_lt hlt, RB_TREE_LESS_THAN, RB_TREE_EQUAL] at h
      norm_num at h
      have := ihl _ _ _ _ _ _ _ h
      refine ⟨this.1, ?_⟩
      rw [this.2]
      simp [plug, link]
    · subst heq
      rw [RtlpRbTreeFindNode] at h
      simp [rbCompare_eq_of_eq, RB_TREE_EQUAL] at h
      obtain ⟨rfl, rfl, rfl, rfl, rfl, rfl⟩ := h
      exact ⟨rfl, rfl⟩
    · rw [RtlpRbTreeFindNode] at h
      simp only [rbCompare_eq_of_gt hgt, RB_TREE_GREATER_THAN, RB_TREE_EQUAL,
        RB_TREE_LESS_THAN] at h
      norm_num at h
      have := ihr _ _ _ _ _ _ _ h
      refine ⟨this.1, ?_⟩
      rw [this.2]
      simp [plug, link]

theorem minimum_decomp {α : Type} :
    ∀ (l : RbNode α) (c : Colour) (k : α) (o : Nat) (r : RbNode α) (q sp : ZPath α)
      (sc : Colour) (sk : α) (so : Nat) (sr : RbNode α),
      RtlpRbTreeMinimum c l k o r q = (sp, sc, sk, so, sr) →
      plug sp (.node sc .nil sk so sr) = plug q (.node c l k o r) ∧ plugL sp = plugL q := by
  intro l
  induction l with
  | nil =>
    intro c k o r q sp sc sk so sr h
    simp only [RtlpRbTreeMinimum, Prod.mk.injEq] at h
    obtain ⟨rfl, rfl, rfl, rfl, rfl⟩ := h
    exact ⟨rfl, rfl⟩
  | node lc ll lk lo lr ihl ihr =>
    intro c k o r q sp sc sk so sr h
    rw [RtlpRbTreeMinimum] at h
    have := ihl _ _ _ _ _ _ _ _ _ _ h
    refine ⟨?_, ?_⟩
    · rw [this.1]; simp [plug, link]
    · rw [this.2]; simp [plugL]

theorem fixupDelete_rootBlack2 {α : Type} (p : ZPath α) (t : RbNode α)
    (h : p ≠ [] → rootColour (plug p t) = .black) :
    rootColour (RtlpRbTreeFixupDelete p t) = .black := by
  cases p with
  | nil => simp [RtlpRbTreeFixupDelete]
  | cons e q => exact fixupDelete_rootBlack (e :: q) t (h (by simp))

theorem delete_notfound {α : Type} [LinearOrder α] (st : RB_TREE α) (Key : α)
    (h : RtlpRbTreeFindNode Key st.root [] = none) :
    RtlRbTreeDeleteNode st Key = st := by
  rw [RtlRbTreeDeleteNode, h]

set_option maxHeartbeats 1000000 in
theorem delete_found {α : Type} [LinearOrder α] (st : RB_TREE α) (Key : α)
    (p : ZPath α) (tc : Colour) (tl : RbNode α) (tk : α) (toid : Nat) (tr : RbNode α)
    (hf : RtlpRbTreeFindNode Key st.root [] = some (p, tc, tl, tk, toid, tr)) :
    inorder (RtlRbTreeDeleteNode st Key).root =
        plugL p ++ inorder tl ++ inorder tr ++ plugR p ∧
      (RtlRbTreeDeleteNode st Key).node_count = dec32 st.node_count ∧
      (RtlRbTreeDeleteNode st Key).deletion_count = inc32 st.deletion_count ∧
      (RtlRbTreeDeleteNode st Key).insertion_count = st.insertion_count ∧
      (RtlRbTreeDeleteNode st Key).next_oid = st.next_oid ∧
      (rootColour st.root = .black → rootColour (RtlRbTreeDeleteNode st Key).root = .black) := by
  obtain ⟨hk, hplug⟩ := findNode_some Key st.root [] p tc tl tk toid tr hf
  rw [plug] at hplug
  -- hplug : plug p (node tc tl tk toid tr) = st.root
  rw [RtlRbTreeDeleteNode, hf]
  by_cases h1 : tl = .nil
  · subst h1
    by_cases h2 : tc = .black ∧ tr ≠ .nil
    · simp only [if_pos rfl, if_pos h2, if_true]
      refine ⟨?_, by trivial, by trivial, by trivial, by trivial, ?_⟩
      · rw [fixupDelete_inorder]
        simp [inorder]
      · intro hb
        apply fixupDelete_rootBlack2
        intro hp
        rw [rootColour_plug_indep p hp tr (.node tc .nil tk toid tr), hplug]
        exact hb
    · simp only [if_pos rfl, if_neg h2, if_true, if_false]
      refine ⟨?_, by trivial, by trivial, by trivial, by trivial, ?_⟩
      · rw [inorder_plug]
        simp [inorder]
      · intro hb
        cases hp : p with
        | nil =>
          subst hp
          rw [plug] at hplug ⊢
          rw [← hplug] at hb
          simp only [rootColour] at hb
          subst hb
          have h3 : tr = .nil := by
            by_contra h4
            exact h2 ⟨rfl, h4⟩
          subst h3
          simp [rootColour]
        | cons f q =>
          rw [← hp]
          rw [rootColour_plug_indep p (by rw [hp]; simp) tr (.node tc .nil tk toid tr), hplug]
          exact hb
  · by_cases h2 : tr = .nil
    · subst h2
      by_cases h3 : tc = .black ∧ tl ≠ .nil
      · simp only [if_neg h1, if_pos rfl, if_pos h3, if_true, if_false]
        refine ⟨?_, by trivial, by trivial, by trivial, by trivial, ?_⟩
        · rw [fixupDelete_inorder]
          simp [inorder]
        · intro hb
          apply fixupDelete_rootBlack2
          intro hp
          rw [rootColour_plug_indep p hp tl (.node tc tl tk toid .nil), hplug]
          exact hb
      · simp only [if_neg h1, if_pos rfl, if_neg h3, if_true, if_false]
        refine ⟨?_, by trivial, by trivial, by trivial, by trivial, ?_⟩
        · rw [inorder_plug]
          simp [inorder]
        · intro hb
          cases hp : p with
          | nil =>
            subst hp
            rw [plug] at hplug ⊢
            rw [← hplug] at hb
            simp only [rootColour] at hb
            subst hb
            exact absurd ⟨rfl, h1⟩ h3
          | cons f q =>
            rw [← hp]
            rw [rootColour_plug_indep p (by rw [hp]; simp) tl (.node tc tl tk toid .nil), hplug]
            exact hb
    · -- two children
      match htr : tr with
      | .nil => exact absurd rfl h2
      | .node rc rl rk ro rr =>
        subst htr
        rcases hmin : RtlpRbTreeMinimum rc rl rk ro rr [] with ⟨sp, sc, sk, so, sr⟩
        obtain ⟨hmin1, hmin2⟩ := minimum_decomp rl rc rk ro rr [] sp sc sk so sr hmin
        rw [plug] at hmin1
        simp only [plugL] at hmin2
        -- hmin1 : plug sp (node sc nil sk so sr) = node rc rl rk ro rr
        simp only [if_neg h1, if_neg h2, hmin, if_true, if_false]
        by_cases h4 : sc = .black ∧ sr ≠ .nil
        · simp only [if_pos h4, if_true]
          refine ⟨?_, by trivial, by trivial, by trivial, by trivial, ?_⟩
          · rw [fixupDelete_inorder, plugL_append, plugR_append, hmin2]
            have : inorder (RbNode.node rc rl rk ro rr) =
                (sk, so) :: inorder sr ++ plugR sp := by
              rw [← hmin1, inorder_plug, hmin2]
              simp [inorder]
            rw [this]
            simp [plugL, plugR, inorder]
          · intro hb
            apply fixupDelete_rootBlack2
            intro hp
            rw [plug_append, plug]
            have hsw : rootColour
                (link (⟨.right, tc, sk, so, tl⟩ : PathEntry α) tc (plug sp sr)) =
                rootColour (RbNode.node tc tl tk toid (RbNode.node rc rl rk ro rr)) := by
              rw [rootColour_link]; rfl
            rw [rootColour_plug_swap p _ _ hsw, hplug]
            exact hb
        · simp only [if_neg h4, if_true, if_false]
          refine ⟨?_, by trivial, by trivial, by trivial, by trivial, ?_⟩
          · rw [inorder_plug]
            have : inorder (RbNode.node rc rl rk ro rr) =
                (sk, so) :: inorder sr ++ plugR sp := by
              rw [← hmin1, inorder_plug, hmin2]
              simp [inorder]
            rw [this]
            have h5 : inorder (plug sp sr) = inorder sr ++ plugR sp := by
              rw [inorder_plug, hmin2]
              simp
            simp [inorder, h5]
          · intro hb
            have hsw : rootColour (RbNode.node tc tl sk so (plug sp sr)) =
                rootColour (RbNode.node tc tl tk toid (RbNode.node rc rl rk ro rr)) := rfl
            rw [rootColour_plug_swap p _ _ hsw, hplug]
            exact hb

/-! Per-operation preservation of the basic state invariant: sorted in-order
entries, black root, and the node counter tracking the entry count modulo
2^32 (`UINT32` wrap-around). -/

/-- Invariant maintained by every tree state reachable from the freshly
created empty tree. -/
def SeqInv {α : Type} [LinearOrder α] (st : RB_TREE α) : Prop :=
  sortedP (inorder st.root) ∧ rootColour st.root = .black ∧
    st.node_count = (inorder st.root).length % 4294967296

theorem insert_allocFail {α : Type} [LinearOrder α] (st : RB_TREE α) (Key : α) :
    RtlRbTreeInsertNode st Key false = (none, st) := by
  simp [RtlRbTreeInsertNode]

theorem insert_inl {α : Type} [LinearOrder α] (st : RB_TREE α) (Key : α) (p : ZPath α)
    (hdes : insertNodeDescend Key st.root [] = .inl p) :
    RtlRbTreeInsertNode st Key true =
      (some st.next_oid,
        { st with
            root := RtlpRbTreeFixupInsert p (.node .red .nil Key st.next_oid .nil)
            insertion_count := inc32 st.insertion_count
            node_count := inc32 st.node_count
            next_oid := st.next_oid + 1 }) := by
  rw [RtlRbTreeInsertNode]
  simp [hdes]

theorem insert_inr {α : Type} [LinearOrder α] (st : RB_TREE α) (Key : α) (o : Nat)
    (hdes : insertNodeDescend Key st.root [] = .inr o) :
    RtlRbTreeInsertNode st Key true = (some o, st) := by
  rw [RtlRbTreeInsertNode]
  simp [hdes]

theorem insert_new_inorder {α : Type} [LinearOrder α] (st : RB_TREE α) (Key : α) (p : ZPath α)
    (hdes : insertNodeDescend Key st.root [] = .inl p) :
    ∃ A B, inorder st.root = A ++ B ∧
      inorder (RtlRbTreeInsertNode st Key true).2.root = A ++ (Key, st.next_oid) :: B ∧
      (sortedP (inorder st.root) → (∀ x ∈ A, x.1 < Key) ∧ (∀ x ∈ B, Key < x.1)) := by
  obtain ⟨A, B, hAB, hL, hR, hb⟩ := insertNodeDescend_inl_decomp Key st.root [] p hdes
  simp only [plugL, plugR, List.append_nil] at hL hR
  refine ⟨A, B, hAB, ?_, hb⟩
  rw [insert_inl st Key p hdes]
  simp only [fixupInsert_inorder]
  rw [hL, hR]
  simp [inorder]

theorem seqInv_insert {α : Type} [LinearOrder α] (st : RB_TREE α) (Key : α) (ok : Bool)
    (h : SeqInv st) : SeqInv (RtlRbTreeInsertNode st Key ok).2 := by
  obtain ⟨hs, hb, hc⟩ := h
  cases ok with
  | false => rw [insert_allocFail]; exact ⟨hs, hb, hc⟩
  | true =>
    cases hdes : insertNodeDescend Key st.root [] with
    | inr o => rw [insert_inr st Key o hdes]; exact ⟨hs, hb, hc⟩
    | inl p =>
      obtain ⟨A, B, hAB, hio, hbnd⟩ := insert_new_inorder st Key p hdes
      obtain ⟨hA, hB⟩ := hbnd hs
      refine ⟨?_, ?_, ?_⟩
      · rw [hio]
        rw [hAB] at hs
        simp only [sortedP, List.pairwise_append] at hs ⊢
        rw [List.pairwise_cons]
        refine ⟨hs.1, ⟨hB, hs.2.1⟩, ?_⟩
        intro a ha b hbm
        rcases List.mem_cons.1 hbm with hbm | hbm
        · subst hbm; exact hA a ha
        · exact lt_trans (hA a ha) (hB b hbm)
      · rw [insert_inl st Key p hdes]
        exact fixupInsert_rootBlack p _
      · rw [insert_inl st Key p hdes] at hio ⊢
        simp only at hio ⊢
        rw [hio, hc, hAB]
        simp only [List.length_append, List.length_cons, inc32]
        omega

theorem seqInv_delete {α : Type} [LinearOrder α] (st : RB_TREE α) (Key : α)
    (h : SeqInv st) : SeqInv (RtlRbTreeDeleteNode st Key) := by
  obtain ⟨hs, hb, hc⟩ := h
  cases hf : RtlpRbTreeFindNode Key st.root [] with
  | none => rw [delete_notfound st Key hf]; exact ⟨hs, hb, hc⟩
  | some res =>
    obtain ⟨p, tc, tl, tk, toid, tr⟩ := res
    obtain ⟨hio, hcnt, hdc, hic, hno, hroot⟩ := delete_found st Key p tc tl tk toid tr hf
    obtain ⟨hk, hplug⟩ := findNode_some Key st.root [] p tc tl tk toid tr hf
    rw [plug] at hplug
    have horig : inorder st.root =
        plugL p ++ (inorder tl ++ (tk, toid) :: inorder tr) ++ plugR p := by
      rw [← hplug, inorder_plug]
      simp [inorder]
    refine ⟨?_, hroot hb, ?_⟩
    · rw [hio]
      rw [horig] at hs
      refine List.Pairwise.sublist ?_ hs
      have hsub : List.Sublist (inorder tl ++ inorder tr)
          (inorder tl ++ (tk, toid) :: inorder tr) :=
        List.Sublist.append_left (List.Sublist.cons _ (List.Sublist.refl _)) _
      have := List.Sublist.append
        (List.Sublist.append (List.Sublist.refl (plugL p)) hsub)
        (List.Sublist.refl (plugR p))
      simp only [List.append_assoc] at this ⊢
      exact this
    · rw [hcnt, hio, hc, horig]
      simp only [List.length_append, List.length_cons, dec32]
      omega

theorem seqInv_emptyTree (α : Type) [LinearOrder α] : SeqInv (emptyTree α) := by
  refine ⟨?_, ?_, ?_⟩ <;> simp [emptyTree, inorder, sortedP, rootColour]

theorem seqInv_runOps {α : Type} [LinearOrder α] (ops : List (RbOp α)) :
    SeqInv (runOps ops) := by
  have h : ∀ (l : List (RbOp α)) (st : RB_TREE α), SeqInv st → SeqInv (l.foldl applyOp st) := by
    intro l
    induction l with
    | nil => intro st h; exact h
    | cons op rest ih =>
      intro st h
      cases op with
      | ins k ok => exact ih _ (seqInv_insert st k ok h)
      | del k => exact ih _ (seqInv_delete st k h)
  exact h ops (emptyTree α) (seqInv_emptyTree α)

theorem enumLoop_eq_inorder {α : Type} :
    ∀ (t : RbNode α), RtlpRbTreeEnumerate t = inorder t := by
  intro t
  induction t with
  | nil => rfl
  | node c l k o r ihl ihr => simp [RtlpRbTreeEnumerate, inorder, ihl, ihr]

theorem enum_eq_inorder {α : Type} [LinearOrder α] (st : RB_TREE α) :
    RtlRbTreeEnumerate st = inorder st.root := by
  rw [RtlRbTreeEnumerate]
  by_cases h : st.root = .nil
  · rw [if_pos h, h]; rfl
  · rw [if_neg h, enumLoop_eq_inorder]

/-- Left child of a node (null for null). -/
def leftOf {α : Type} : RbNode α → RbNode α
  | .nil => .nil
  | .node _ l _ _ _ => l

/-- Right child of a node (null for null). -/
def rightOf {α : Type} : RbNode α → RbNode α
  | .nil => .nil
  | .node _ _ _ _ r => r

/-- Key stored at a node, if any. -/
def keyAt {α : Type} : RbNode α → Option α
  | .nil => none
  | .node _ _ k _ _ => some k

theorem findObjectLoop_iff {α : Type} [LinearOrder α] (Key : α) :
    ∀ (t : RbNode α) (o : Nat), sortedP (inorder t) →
      (RtlRbTreeFindNodeObjectLoop Key t = some o ↔ (Key, o) ∈ inorder t) := by
  intro t
  induction t with
  | nil => intro o _; simp [RtlRbTreeFindNodeObjectLoop, inorder]
  | node c l k o2 r ihl ihr =>
    intro o hs
    have hs2 := hs
    simp only [sortedP, inorder, List.pairwise_append, List.pairwise_cons] at hs2
    rcases lt_trichotomy Key k with hlt | heq | hgt
    · rw [RtlRbTreeFindNodeObjectLoop]
      simp only [rbCompare_eq_of_lt hlt, RB_TREE_LESS_THAN, RB_TREE_EQUAL]
      norm_num
      rw [ihl o hs2.1]
      simp only [inorder, List.mem_append, List.mem_cons]
      constructor
      · intro h; exact Or.inl h
      · intro h
        rcases h with h | h | h
        · exact h
        · exfalso; rw [Prod.ext_iff] at h; exact absurd h.1 (ne_of_lt hlt)
        · exfalso
          have := hs2.2.1.1 _ h
          exact absurd (lt_trans hlt this) (lt_irrefl Key)
    · subst heq
      rw [RtlRbTreeFindNodeObjectLoop]
      simp only [rbCompare_eq_of_eq, RB_TREE_EQUAL, if_true]
      simp only [Option.some.injEq, inorder, List.mem_append, List.mem_cons]
      constructor
      · intro h; subst h; exact Or.inr (Or.inl rfl)
      · intro h
        rcases h with h | h | h
        · exfalso
          have := hs2.2.2 _ h (Key, o2) (List.mem_cons_self _ _)
          simp at this
        · exact ((Prod.ext_iff.1 h).2).symm
        · exfalso
          have := hs2.2.1.1 _ h
          simp at this
    · rw [RtlRbTreeFindNodeObjectLoop]
      simp only [rbCompare_eq_of_gt hgt, RB_TREE_GREATER_THAN, RB_TREE_EQUAL,
        RB_TREE_LESS_THAN]
      norm_num
      rw [ihr o hs2.2.1.2]
      simp only [inorder, List.mem_append, List.mem_cons]
      constructor
      · intro h; exact Or.inr (Or.inr h)
      · intro h
        rcases h with h | h | h
        · exfalso
          have := hs2.2.2 _ h (k, o2) (List.mem_cons_self _ _)
          exact absurd (lt_trans this hgt) (lt_irrefl Key)
        · exfalso; rw [Prod.ext_iff] at h; exact absurd h.1 (ne_of_gt hgt)
        · exact h

/-! Claim theorems. -/

/-- C2: for every sequence of Insert and Delete operations applied to an
initially empty tree (the comparator being the strict total order's three-way
comparison), the in-order traversal of the resulting tree yields strictly
ascending keys. -/
theorem claim2_sequences_sorted {α : Type} [LinearOrder α] (ops : List (RbOp α)) :
    (keysOf (inorder (runOps ops).root)).Pairwise (· < ·) := by
  have h := (seqInv_runOps ops).1
  simpa [sortedP, keysOf, List.pairwise_map] using h

/-- C5: when the pool's block allocation fails during Insert, Insert returns
the empty result with the tree (root, all node links/colours/payloads, and
all three counters) exactly as before; and Insert returns the empty result
only in this exhaustion case. -/
theorem claim5_alloc_failure {α : Type} [LinearOrder α] (st : RB_TREE α) (Key : α)
    (allocOk : Bool) :
    ((RtlRbTreeInsertNode st Key allocOk).1 = none ↔ allocOk = false) ∧
      (allocOk = false → RtlRbTreeInsertNode st Key allocOk = (none, st)) := by
  cases allocOk with
  | false => simp [insert_allocFail]
  | true =>
    refine ⟨?_, by simp⟩
    cases hdes : insertNodeDescend Key st.root [] with
    | inl p => rw [insert_inl st Key p hdes]; simp
    | inr o => rw [insert_inr st Key o hdes]; simp

/-- Witness for C5 at a concrete tree and key. -/
theorem claim5_witness :
    ((RtlRbTreeInsertNode (emptyTree Nat) 5 false).1 = none ↔ false = false) ∧
      (false = false → RtlRbTreeInsertNode (emptyTree Nat) 5 false = (none, emptyTree Nat)) :=
  claim5_alloc_failure (emptyTree Nat) 5 false

/-- C6 counterexample: key 5 is stored in the tree, yet Insert of 5 returns
the empty result (not the existing stored object) because the code attempts
the pool allocation before descending and the pool is exhausted.  This
falsifies the claim as stated, which quantifies over every tree and stored
key without assuming the allocation succeeds. -/
theorem claim6_counterexample :
    (5, 0) ∈ inorder (runOps [RbOp.ins (5 : Nat) true]).root ∧
      (RtlRbTreeInsertNode (runOps [RbOp.ins (5 : Nat) true]) 5 false).1 = none := by
  constructor
  · decide
  · decide

/-- C6 (amended): for every tree with sorted in-order entries and every key
whose equal key is already stored with object `o`, when the block allocation
succeeds Insert returns exactly the existing stored object `o` and the whole
tree state — structure, `node_count`, and the insertion counter — is
unchanged. -/
theorem claim6_duplicate_insert {α : Type} [LinearOrder α] (st : RB_TREE α) (Key : α)
    (o : Nat) (hs : sortedP (inorder st.root)) (hm : (Key, o) ∈ inorder st.root) :
    RtlRbTreeInsertNode st Key true = (some o, st) := by
  rw [insert_inr st Key o (insertNodeDescend_mem_inr Key st.root [] o hs hm)]

/-- Witness for the amended C6 at a concrete tree. -/
theorem claim6_witness :
    RtlRbTreeInsertNode (runOps [RbOp.ins (5 : Nat) true]) 5 true =
      (some 0, runOps [RbOp.ins (5 : Nat) true]) :=
  claim6_duplicate_insert (runOps [RbOp.ins (5 : Nat) true]) 5 0 (by decide) (by decide)

/-- A caller-allocated `RB_TREE` whose memory holds stale prior contents —
the state `RtlRbTreeCreate` receives through its `_Out_` parameter. -/
def stalePrior : RB_TREE Nat :=
  { root := .node .red .nil 7 0 .nil, node_count := 5, insertion_count := 6,
    deletion_count := 7, next_oid := 8 }

/-- C7: Create fails with `STATUS_INVALID_PARAMETER` exactly when the
comparator is absent or the object size is zero, fails with the pool's
failure status when the lookaside list cannot be set up, and otherwise
returns success with all three counters zeroed — but, contrary to the claim,
the root is NOT made empty: `RtlRbTreeCreate` never assigns `Tree->root`, so
the `_Out_` structure keeps whatever stale root pointer it held (evaluated
here at a stale prior state, the success result's root is the stale non-null
node). -/
theorem claim7_create_behaviour :
    (∀ (cp pk : Bool) (os : Nat) (T : RB_TREE Nat),
        ((RtlRbTreeCreate cp os pk T).1 = .STATUS_INVALID_PARAMETER ↔ cp = false ∨ os = 0) ∧
        ((RtlRbTreeCreate cp os pk T).1 = .STATUS_INSUFFICIENT_RESOURCES ↔
          cp = true ∧ os ≠ 0 ∧ pk = false) ∧
        ((RtlRbTreeCreate cp os pk T).1 = .STATUS_SUCCESS ↔
          cp = true ∧ os ≠ 0 ∧ pk = true) ∧
        ((RtlRbTreeCreate cp os pk T).1 = .STATUS_SUCCESS →
          (RtlRbTreeCreate cp os pk T).2.node_count = 0 ∧
          (RtlRbTreeCreate cp os pk T).2.insertion_count = 0 ∧
          (RtlRbTreeCreate cp os pk T).2.deletion_count = 0 ∧
          (RtlRbTreeCreate cp os pk T).2.root = T.root)) ∧
      (RtlRbTreeCreate true 4 true stalePrior).1 = .STATUS_SUCCESS ∧
      (RtlRbTreeCreate true 4 true stalePrior).2.root ≠ .nil := by
  refine ⟨?_, by decide, by decide⟩
  intro cp pk os T
  cases cp <;> cases pk <;> by_cases hos : os = 0 <;>
    simp [RtlRbTreeCreate, hos]

/-- C8: after every completed operation (any Insert/Delete sequence from the
created empty tree), the number of nodes reachable from the root equals the
number of entries Enumerate visits; `node_count` equals that number (as a
`UINT32`, exact whenever the node count fits in 32 bits); and the callback
trace of Enumerate is in strictly ascending key order — so each stored entry
is visited exactly once. -/
theorem claim8_node_count_enumerate {α : Type} [LinearOrder α] (ops : List (RbOp α)) :
    sizeT (runOps ops).root = (RtlRbTreeEnumerate (runOps ops)).length ∧
      (sizeT (runOps ops).root < 4294967296 →
        (runOps ops).node_count = sizeT (runOps ops).root) ∧
      (keysOf (RtlRbTreeEnumerate (runOps ops))).Pairwise (· < ·) := by
  obtain ⟨hs, hb, hc⟩ := seqInv_runOps ops
  rw [enum_eq_inorder, sizeT_eq_length_inorder]
  refine ⟨rfl, ?_, ?_⟩
  · intro hlt
    rw [hc, Nat.mod_eq_of_lt hlt]
  · simpa [sortedP, keysOf, List.pairwise_map] using hs

/-- Witness for C8 at a concrete operation sequence. -/
theorem claim8_witness :
    (runOps [RbOp.ins (1 : Nat) true, .ins 2 true, .del 1]).node_count =
      sizeT (runOps [RbOp.ins (1 : Nat) true, .ins 2 true, .del 1]).root :=
  (claim8_node_count_enumerate [RbOp.ins (1 : Nat) true, .ins 2 true, .del 1]).2.1 (by decide)

/-- C9 counterexample: inserting 10, 20, 30 into the empty tree makes 20 the
black root, but its children 10 and 30 are RED, not black as Scenario A
claims. -/
theorem claim9_counterexample :
    ¬(rootColour (leftOf (runOps [RbOp.ins (10 : Nat) true, .ins 20 true, .ins 30 true]).root)
          = .black ∧
      rootColour (rightOf (runOps [RbOp.ins (10 : Nat) true, .ins 20 true, .ins 30 true]).root)
          = .black) := by
  decide

/-- C9 (amended): inserting keys 10, 20, 30 in that order into an empty tree
produces the shape: root holds 20 and is black, its left child holds 10 and
is red, its right child holds 30 and is red (both children leaves). -/
theorem claim9_scenario_a :
    keyAt (runOps [RbOp.ins (10 : Nat) true, .ins 20 true, .ins 30 true]).root = some 20 ∧
    rootColour (runOps [RbOp.ins (10 : Nat) true, .ins 20 true, .ins 30 true]).root = .black ∧
    keyAt (leftOf (runOps [RbOp.ins (10 : Nat) true, .ins 20 true, .ins 30 true]).root)
        = some 10 ∧
    rootColour (leftOf (runOps [RbOp.ins (10 : Nat) true, .ins 20 true, .ins 30 true]).root)
        = .red ∧
    keyAt (rightOf (runOps [RbOp.ins (10 : Nat) true, .ins 20 true, .ins 30 true]).root)
        = some 30 ∧
    rootColour (rightOf (runOps [RbOp.ins (10 : Nat) true, .ins 20 true, .ins 30 true]).root)
        = .red ∧
    leftOf (leftOf (runOps [RbOp.ins (10 : Nat) true, .ins 20 true, .ins 30 true]).root)
        = .nil ∧
    rightOf (leftOf (runOps [RbOp.ins (10 : Nat) true, .ins 20 true, .ins 30 true]).root)
        = .nil ∧
    leftOf (rightOf (runOps [RbOp.ins (10 : Nat) true, .ins 20 true, .ins 30 true]).root)
        = .nil ∧
    rightOf (rightOf (runOps [RbOp.ins (10 : Nat) true, .ins 20 true, .ins 30 true]).root)
        = .nil := by
  decide

/-- C10: `RtlRbTreeFindNodeObject` is a pure read of the tree — its embedding
is a function of the state, which it does not modify (no write to root, any
node link/colour/payload, or any counter occurs in the source) — and on every
tree with sorted in-order entries it returns the stored object of the node
whose key compares equal when one exists, and the empty result otherwise. -/
theorem claim10_find_object {α : Type} [LinearOrder α] (st : RB_TREE α) (Key : α)
    (hs : sortedP (inorder st.root)) :
    (∀ o, RtlRbTreeFindNodeObject st Key = some o ↔ (Key, o) ∈ inorder st.root) ∧
      (RtlRbTreeFindNodeObject st Key = none ↔ ∀ o, (Key, o) ∉ inorder st.root) := by
  have h := fun o => findObjectLoop_iff Key st.root o hs
  constructor
  · intro o; exact h o
  · constructor
    · intro hn o hm
      rw [← h o] at hm
      rw [RtlRbTreeFindNodeObject] at hn
      rw [hn] at hm
      exact Option.noConfusion hm
    · intro hno
      cases hfo : RtlRbTreeFindNodeObject st Key with
      | none => rfl
      | some o =>
        exfalso
        exact hno o ((h o).1 hfo)

/-- Witness for C10 at a concrete tree: the stored key is found with its
object, and an absent key yields the empty result. -/
theorem claim10_witness :
    (RtlRbTreeFindNodeObject (runOps [RbOp.ins (5 : Nat) true, .ins 3 true]) 3 = some 1 ↔
        ((3 : Nat), 1) ∈ inorder (runOps [RbOp.ins (5 : Nat) true, .ins 3 true]).root) :=
  (claim10_find_object (runOps [RbOp.ins (5 : Nat) true, .ins 3 true]) 3 (by decide)).1 1

/-- Witness for C7: the status classification applied at concrete arguments. -/
theorem claim7_witness :
    (RtlRbTreeCreate false 4 true stalePrior).1 = .STATUS_INVALID_PARAMETER :=
  ((claim7_create_behaviour.1 false true 4 stalePrior).1).mpr (Or.inl rfl)

/-! Context predicates describing the colour and black-height facts a fix-up
loop knows about the frozen parent chain above its focus. -/

/-- Colour of the immediate parent recorded in a path (black if none). -/
def headColour {α : Type} : ZPath α → Colour
  | [] => .black
  | e :: _ => e.colour

/-- Colour facts of a parent chain: every sibling subtree has no red-red
edge, and a red ancestor has a non-red sibling subtree and a black parent. -/
def ctxOK {α : Type} : ZPath α → Prop
  | [] => True
  | e :: p => nRR e.sib = true ∧
      (e.colour = .red → isRed e.sib = false ∧ headColour p = .black) ∧ ctxOK p

/-- Black-height bookkeeping of a parent chain: given a focus subtree of
black-height `h`, `ctxBH p h` is the black-height of the reassembled tree, or
`none` if some sibling disagrees. -/
def ctxBH {α : Type} : ZPath α → Nat → Option Nat
  | [], h => some h
  | e :: p, h =>
    match bhF e.sib with
    | some hs => if hs = h then ctxBH p (h + cw e.colour) else none
    | none => none

/-- The bottom (root) entry of a path is black. -/
def lastBlack {α : Type} : ZPath α → Prop
  | [] => True
  | [e] => e.colour = .black
  | _ :: e :: p => lastBlack (e :: p)

theorem lastBlack_tail {α : Type} (e : PathEntry α) (p : ZPath α)
    (h : lastBlack (e :: p)) : lastBlack p := by
  cases p with
  | nil => trivial
  | cons f q => exact h

theorem isRed_link {α : Type} (e : PathEntry α) (c : Colour) (t : RbNode α) :
    isRed (link e c t) = true ↔ c = .red := by
  rw [isRed_true_iff, rootColour_link]

theorem nRR_node_iff {α : Type} (c : Colour) (l : RbNode α) (k : α) (o : Nat) (r : RbNode α) :
    nRR (.node c l k o r) = true ↔
      (c = .red → isRed l = false ∧ isRed r = false) ∧ nRR l = true ∧ nRR r = true := by
  cases c <;> simp [nRR, Bool.and_eq_true, and_assoc]

theorem nRR_link_iff {α : Type} (e : PathEntry α) (c : Colour) (t : RbNode α) :
    nRR (link e c t) = true ↔
      (c = .red → isRed t = false ∧ isRed e.sib = false) ∧
        nRR t = true ∧ nRR e.sib = true := by
  cases e with
  | mk d ec k o s =>
    cases d <;> rw [link] <;> rw [nRR_node_iff] <;> cases c <;> simp <;> tauto

theorem nRR_plug_iff {α : Type} :
    ∀ (p : ZPath α) (t : RbNode α),
      nRR (plug p t) = true ↔
        ctxOK p ∧ nRR t = true ∧ (headColour p = .red → isRed t = false) := by
  intro p
  induction p with
  | nil =>
    intro t
    simp [plug, ctxOK, headColour]
  | cons e p ih =>
    intro t
    rw [plug, ih, nRR_link_iff]
    have hctxe : ctxOK (e :: p) ↔
        (nRR e.sib = true ∧
          (e.colour = .red → isRed e.sib = false ∧ headColour p = .black) ∧ ctxOK p) :=
      Iff.rfl
    have hhce : headColour (e :: p) = e.colour := rfl
    rw [hctxe, hhce]
    constructor
    · rintro ⟨hctx, ⟨hcr, hnt, hns⟩, hhead⟩
      refine ⟨⟨hns, ?_, hctx⟩, hnt, ?_⟩
      · intro hec
        refine ⟨(hcr hec).2, ?_⟩
        cases hhp : headColour p with
        | black => rfl
        | red =>
          exfalso
          have h2 := (isRed_link e e.colour t).mpr hec
          rw [hhead hhp] at h2
          exact Bool.noConfusion h2
      · intro hec; exact (hcr hec).1
    · rintro ⟨⟨hns, hcr, hctx⟩, hnt, hhead⟩
      refine ⟨hctx, ⟨?_, hnt, hns⟩, ?_⟩
      · intro hec; exact ⟨hhead hec, (hcr hec).1⟩
      · intro hhp
        rw [Bool.eq_false_iff]
        intro habs
        rw [← Bool.not_eq_false] at habs
        have hec := (isRed_link e e.colour t).mp (Bool.of_not_eq_false habs)
        have := (hcr hec).2
        rw [hhp] at this
        exact Colour.noConfusion this

theorem bhF_link {α : Type} (e : PathEntry α) (c : Colour) (t : RbNode α) :
    bhF (link e c t) =
      (bhF t).bind (fun ht => (bhF e.sib).bind (fun hs =>
        if ht = hs then some (ht + cw c) else none)) := by
  cases e with
  | mk d ec k o s =>
    cases d <;> rw [link] <;> rw [bhF] <;>
      cases ht : bhF t <;> cases hs : bhF s <;> simp_all <;>
      rename_i a b <;> by_cases hab : a = b <;> simp [hab] <;> omega

theorem bhF_plug {α : Type} :
    ∀ (p : ZPath α) (t : RbNode α),
      bhF (plug p t) = (bhF t).bind (ctxBH p) := by
  intro p
  induction p with
  | nil =>
    intro t
    cases ht : bhF t <;> simp [plug, ctxBH, ht]
  | cons e p ih =>
    intro t
    rw [plug, ih, bhF_link]
    cases ht : bhF t with
    | none => rfl
    | some a =>
      simp only [Option.some_bind]
      rw [ctxBH]
      cases hs : bhF e.sib with
      | none => rfl
      | some b =>
        simp only [Option.some_bind]
        by_cases hab : a = b
        · subst hab
          simp
        · rw [if_neg hab, if_neg (fun h => hab h.symm)]
          simp

theorem ctxBH_cons_isSome {α : Type} (e : PathEntry α) (p : ZPath α) (h : Nat) :
    (ctxBH (e :: p) h).isSome = true ↔
      bhF e.sib = some h ∧ (ctxBH p (h + cw e.colour)).isSome = true := by
  rw [ctxBH]
  cases hs : bhF e.sib with
  | none => simp
  | some b =>
    by_cases hb : b = h
    · subst hb; simp
    · simp [hb, Ne.symm hb]


theorem bh0_structure {α : Type} (t : RbNode α) (h0 : bhF t = some 0)
    (hnr : isRed t = false) : t = .nil := by
  cases t with
  | nil => rfl
  | node c l k o r =>
    cases c with
    | red => simp [isRed] at hnr
    | black =>
      exfalso
      rw [bhF] at h0
      cases hl : bhF l with
      | none => rw [hl] at h0; cases hr : bhF r <;> rw [hr] at h0 <;> simp at h0
      | some a =>
        rw [hl] at h0
        cases hr : bhF r with
        | none => rw [hr] at h0; simp at h0
        | some b =>
          rw [hr] at h0
          dsimp only at h0
          by_cases hab : a = b
          · rw [if_pos hab] at h0
            simp [cw] at h0
          · rw [if_neg hab] at h0
            simp at h0

theorem bhF_blacken_red {α : Type} (t : RbNode α) (hr : isRed t = true) (n : Nat)
    (hb : bhF t = some n) : bhF (blacken t) = some (n + 1) := by
  cases t with
  | nil => simp [isRed] at hr
  | node c l k o r =>
    cases c with
    | black => simp [isRed] at hr
    | red =>
      rw [bhF] at hb
      rw [blacken, bhF]
      cases hl : bhF l with
      | none => rw [hl] at hb; cases hr : bhF r <;> rw [hr] at hb <;> simp at hb
      | some a =>
        rw [hl] at hb
        cases hr : bhF r with
        | none => rw [hr] at hb; simp at hb
        | some b =>
          rw [hr] at hb
          dsimp only at hb ⊢
          by_cases hab : a = b
          · rw [if_pos hab] at hb ⊢
            simp [cw] at hb ⊢
            omega
          · rw [if_neg hab] at hb
            simp at hb

theorem nRR_plug_mono {α : Type} (p : ZPath α) (t t2 : RbNode α)
    (h : nRR (plug p t) = true) (h2 : nRR t2 = true)
    (h3 : isRed t2 = true → isRed t = true) : nRR (plug p t2) = true := by
  rw [nRR_plug_iff] at h ⊢
  obtain ⟨hctx, hnt, hhead⟩ := h
  refine ⟨hctx, h2, ?_⟩
  intro hh
  cases hr2 : isRed t2 with
  | false => rfl
  | true => exact absurd (hhead hh) (by rw [h3 hr2]; simp)

theorem lastBlack_of_rootBlack {α : Type} :
    ∀ (p : ZPath α) (t : RbNode α), rootColour (plug p t) = .black → lastBlack p := by
  intro p
  induction p with
  | nil => intro t _; trivial
  | cons e p ih =>
    intro t h
    cases p with
    | nil =>
      rw [plug, plug, rootColour_link] at h
      exact h
    | cons f q =>
      rw [plug] at h
      exact ih (link e e.colour t) h

theorem isRed_link_black {α : Type} (e : PathEntry α) (t : RbNode α) :
    isRed (link e .black t) = false := by
  cases e with
  | mk d ec k o s => cases d <;> rfl

theorem bhF_node_red_intro {α : Type} (l : RbNode α) (k : α) (o : Nat) (r : RbNode α)
    (n : Nat) (hl : bhF l = some n) (hr : bhF r = some n) :
    bhF (.node .red l k o r) = some n := by
  rw [bhF, hl, hr]
  simp [cw]

theorem bhF_node_black_intro {α : Type} (l : RbNode α) (k : α) (o : Nat) (r : RbNode α)
    (n : Nat) (hl : bhF l = some n) (hr : bhF r = some n) :
    bhF (.node .black l k o r) = some (n + 1) := by
  rw [bhF, hl, hr]
  simp [cw]

theorem bhF_node_red_elim {α : Type} (l : RbNode α) (k : α) (o : Nat) (r : RbNode α)
    (n : Nat) (h : bhF (.node .red l k o r) = some n) :
    bhF l = some n ∧ bhF r = some n := by
  rw [bhF] at h
  cases hl : bhF l with
  | none => rw [hl] at h; cases hr : bhF r <;> rw [hr] at h <;> simp at h
  | some a =>
    rw [hl] at h
    cases hr : bhF r with
    | none => rw [hr] at h; simp at h
    | some b =>
      rw [hr] at h
      dsimp only at h
      by_cases hab : a = b
      · subst hab
        rw [if_pos rfl] at h
        simp [cw] at h
        subst h
        exact ⟨rfl, rfl⟩
      · rw [if_neg hab] at h
        simp at h

theorem linkBlack_bh {α : Type} (e : PathEntry α) (t : RbNode α) (h : Nat)
    (ht : bhF t = some h) (hs : bhF e.sib = some h) :
    bhF (link e .black t) = some (h + 1) := by
  rw [bhF_link, ht, hs]
  simp [cw]

set_option maxHeartbeats 2000000 in
theorem fixupInsert_valid {α : Type} :
    ∀ (p : ZPath α) (t : RbNode α), ∀ (h : Nat),
      ctxOK p → lastBlack p → isRed t = true → nRR t = true → bhF t = some h →
      (ctxBH p h).isSome = true →
      nRR (RtlpRbTreeFixupInsert p t) = true ∧
        (bhF (RtlpRbTreeFixupInsert p t)).isSome = true := by
  intro p t
  induction p, t using RtlpRbTreeFixupInsert.induct with
  | case1 t =>
    intro h hco hlb hred hnrr hbh hcbh
    rw [RtlpRbTreeFixupInsert]
    exact ⟨nRR_blacken t hnrr, bhF_blacken t (by rw [hbh]; rfl)⟩
  | case2 e p t hc =>
    intro h hco hlb hred hnrr hbh hcbh
    obtain ⟨ed, ec, ek, eo, es⟩ := e
    simp only [PathEntry.colour] at hc
    subst hc
    simp only [RtlpRbTreeFixupInsert]
    have hplugOK : nRR (plug (⟨ed, .black, ek, eo, es⟩ :: p) t) = true := by
      rw [nRR_plug_iff]
      exact ⟨hco, hnrr, fun hh => Colour.noConfusion hh⟩
    have hplugBH : (bhF (plug (⟨ed, .black, ek, eo, es⟩ :: p) t)).isSome = true := by
      rw [bhF_plug, hbh]
      exact hcbh
    exact ⟨nRR_blacken _ hplugOK, bhF_blacken _ hplugBH⟩
  | case3 e t hc =>
    intro h hco hlb hred hnrr hbh hcbh
    exact absurd (show e.colour = .black from hlb) (by rw [hc]; intro habs; exact Colour.noConfusion habs)
  | case4 e t hc ge rest2 hd hu ih =>
    intro h hco hlb hred hnrr hbh hcbh
    obtain ⟨hnse, hcre, hnsg, hcrg, hco2⟩ := hco
    have hge : ge.colour = .black := (hcre hc).2
    obtain ⟨hbse, hcbh2⟩ := (ctxBH_cons_isSome _ _ _).1 hcbh
    rw [hc] at hcbh2
    simp only [cw, Nat.add_zero] at hcbh2
    obtain ⟨hbsg, hcbh3⟩ := (ctxBH_cons_isSome _ _ _).1 hcbh2
    rw [hge] at hcbh3
    simp only [cw] at hcbh3
    obtain ⟨ed, ec, ek, eo, es⟩ := e
    obtain ⟨gd, gc, gk, go, gs⟩ := ge
    simp only [PathEntry.colour, PathEntry.dir, PathEntry.sib] at hc hd hge hu hbse hbsg hcre
    subst hc; subst hd; subst hge
    simp only [RtlpRbTreeFixupInsert, hu, if_true]
    have hA : bhF (link ⟨ed, .red, ek, eo, es⟩ .black t) = some (h + 1) :=
      linkBlack_bh _ t h hbh hbse
    have hB : bhF (blacken gs) = some (h + 1) := bhF_blacken_red gs hu h hbsg
    apply ih (h + 1) hco2 (lastBlack_tail _ _ (lastBlack_tail _ _ hlb))
    · simp [isRed]
    · rw [nRR_node_iff]
      refine ⟨?_, ?_, nRR_blacken _ hnsg⟩
      · intro _
        exact ⟨isRed_link_black _ _, isRed_blacken _⟩
      · rw [nRR_link_iff]
        exact ⟨fun hh => Colour.noConfusion hh, hnrr, hnse⟩
    · exact bhF_node_red_intro _ _ _ _ (h + 1) hA hB
    · exact hcbh3
  | case5 e t hc ge rest2 hd hu he =>
    intro h hco hlb hred hnrr hbh hcbh
    obtain ⟨hnse, hcre, hnsg, hcrg, hco2⟩ := hco
    have hge : ge.colour = .black := (hcre hc).2
    have hese : isRed e.sib = false := (hcre hc).1
    obtain ⟨hbse, hcbh2⟩ := (ctxBH_cons_isSome _ _ _).1 hcbh
    rw [hc] at hcbh2
    simp only [cw, Nat.add_zero] at hcbh2
    obtain ⟨hbsg, hcbh3⟩ := (ctxBH_cons_isSome _ _ _).1 hcbh2
    rw [hge] at hcbh3
    simp only [cw] at hcbh3
    rw [Bool.not_eq_true] at hu
    obtain ⟨ed, ec, ek, eo, es⟩ := e
    obtain ⟨gd, gc, gk, go, gs⟩ := ge
    simp only [PathEntry.colour, PathEntry.dir, PathEntry.sib] at hc hd he hge hu hbse hbsg hese
    subst hc; subst hd; subst hge; subst he
    simp only [RtlpRbTreeFixupInsert, hu, Bool.false_eq_true, if_false]
    have hT : bhF (RbNode.node .black t ek eo (.node .red es gk go gs)) = some (h + 1) :=
      bhF_node_black_intro _ _ _ _ h hbh (bhF_node_red_intro _ _ _ _ h hbse hbsg)
    have hTn : nRR (RbNode.node .black t ek eo (.node .red es gk go gs)) = true := by
      rw [nRR_node_iff]
      refine ⟨fun hh => Colour.noConfusion hh, hnrr, ?_⟩
      rw [nRR_node_iff]
      exact ⟨fun _ => ⟨hese, hu⟩, hnse, hnsg⟩
    constructor
    · apply nRR_blacken
      rw [nRR_plug_iff]
      exact ⟨hco2, hTn, fun _ => rfl⟩
    · apply bhF_blacken
      rw [bhF_plug, hT]
      exact hcbh3
  | case6 e hc ge rest2 hd hu he =>
    intro h hco hlb hred hnrr hbh hcbh
    simp [isRed] at hred
  | case7 e hc ge rest2 hd hu he tc tl tk toid tr =>
    intro h hco hlb hred hnrr hbh hcbh
    obtain ⟨hnse, hcre, hnsg, hcrg, hco2⟩ := hco
    have hge : ge.colour = .black := (hcre hc).2
    have hese : isRed e.sib = false := (hcre hc).1
    obtain ⟨hbse, hcbh2⟩ := (ctxBH_cons_isSome _ _ _).1 hcbh
    rw [hc] at hcbh2
    simp only [cw, Nat.add_zero] at hcbh2
    obtain ⟨hbsg, hcbh3⟩ := (ctxBH_cons_isSome _ _ _).1 hcbh2
    rw [hge] at hcbh3
    simp only [cw] at hcbh3
    rw [Bool.not_eq_true] at hu
    have htc : tc = .red := by
      cases tc with
      | red => rfl
      | black => simp [isRed] at hred
    subst htc
    have hch := (nRR_node_iff _ _ _ _ _).1 hnrr
    obtain ⟨hchn, hnl, hnr2⟩ := hch
    obtain ⟨hltl, hltr⟩ := hchn rfl
    obtain ⟨hbl, hbr⟩ := bhF_node_red_elim _ _ _ _ h hbh
    obtain ⟨ed, ec, ek, eo, es⟩ := e
    obtain ⟨gd, gc, gk, go, gs⟩ := ge
    simp only [PathEntry.colour, PathEntry.dir, PathEntry.sib] at hc hd he hge hu hbse hbsg hese
    subst hc; subst hd; subst hge; subst he
    simp only [RtlpRbTreeFixupInsert, hu, Bool.false_eq_true, if_false]
    have hT : bhF (RbNode.node .black (.node .red es ek eo tl) tk toid
        (.node .red tr gk go gs)) = some (h + 1) :=
      bhF_node_black_intro _ _ _ _ h (bhF_node_red_intro _ _ _ _ h hbse hbl)
        (bhF_node_red_intro _ _ _ _ h hbr hbsg)
    have hTn : nRR (RbNode.node .black (.node .red es ek eo tl) tk toid
        (.node .red tr gk go gs)) = true := by
      rw [nRR_node_iff]
      refine ⟨fun hh => Colour.noConfusion hh, ?_, ?_⟩
      · rw [nRR_node_iff]
        exact ⟨fun _ => ⟨hese, hltl⟩, hnse, hnl⟩
      · rw [nRR_node_iff]
        exact ⟨fun _ => ⟨hltr, hu⟩, hnr2, hnsg⟩
    constructor
    · apply nRR_blacken
      rw [nRR_plug_iff]
      exact ⟨hco2, hTn, fun _ => rfl⟩
    · apply bhF_blacken
      rw [bhF_plug, hT]
      exact hcbh3
  | case8 e t hc ge rest2 hd hu ih =>
    intro h hco hlb hred hnrr hbh hcbh
    obtain ⟨hnse, hcre, hnsg, hcrg, hco2⟩ := hco
    have hge : ge.colour = .black := (hcre hc).2
    obtain ⟨hbse, hcbh2⟩ := (ctxBH_cons_isSome _ _ _).1 hcbh
    rw [hc] at hcbh2
    simp only [cw, Nat.add_zero] at hcbh2
    obtain ⟨hbsg, hcbh3⟩ := (ctxBH_cons_isSome _ _ _).1 hcbh2
    rw [hge] at hcbh3
    simp only [cw] at hcbh3
    obtain ⟨ed, ec, ek, eo, es⟩ := e
    obtain ⟨gd, gc, gk, go, gs⟩ := ge
    simp only [PathEntry.colour, PathEntry.dir, PathEntry.sib] at hc hd hge hu hbse hbsg hcre
    subst hc; subst hd; subst hge
    simp only [RtlpRbTreeFixupInsert, hu, if_true]
    have hA : bhF (link ⟨ed, .red, ek, eo, es⟩ .black t) = some (h + 1) :=
      linkBlack_bh _ t h hbh hbse
    have hB : bhF (blacken gs) = some (h + 1) := bhF_blacken_red gs hu h hbsg
    apply ih (h + 1) hco2 (lastBlack_tail _ _ (lastBlack_tail _ _ hlb))
    · simp [isRed]
    · rw [nRR_node_iff]
      refine ⟨?_, nRR_blacken _ hnsg, ?_⟩
      · intro _
        exact ⟨isRed_blacken _, isRed_link_black _ _⟩
      · rw [nRR_link_iff]
        exact ⟨fun hh => Colour.noConfusion hh, hnrr, hnse⟩
    · exact bhF_node_red_intro _ _ _ _ (h + 1) hB hA
    · exact hcbh3
  | case9 e t hc ge rest2 hd hu he =>
    intro h hco hlb hred hnrr hbh hcbh
    obtain ⟨hnse, hcre, hnsg, hcrg, hco2⟩ := hco
    have hge : ge.colour = .black := (hcre hc).2
    have hese : isRed e.sib = false := (hcre hc).1
    obtain ⟨hbse, hcbh2⟩ := (ctxBH_cons_isSome _ _ _).1 hcbh
    rw [hc] at hcbh2
    simp only [cw, Nat.add_zero] at hcbh2
    obtain ⟨hbsg, hcbh3⟩ := (ctxBH_cons_isSome _ _ _).1 hcbh2
    rw [hge] at hcbh3
    simp only [cw] at hcbh3
    rw [Bool.not_eq_true] at hu
    obtain ⟨ed, ec, ek, eo, es⟩ := e
    obtain ⟨gd, gc, gk, go, gs⟩ := ge
    simp only [PathEntry.colour, PathEntry.dir, PathEntry.sib] at hc hd he hge hu hbse hbsg hese
    subst hc; subst hd; subst hge; subst he
    simp only [RtlpRbTreeFixupInsert, hu, Bool.false_eq_true, if_false]
    have hT : bhF (RbNode.node .black (.node .red gs gk go es) ek eo t) = some (h + 1) :=
      bhF_node_black_intro _ _ _ _ h (bhF_node_red_intro _ _ _ _ h hbsg hbse) hbh
    have hTn : nRR (RbNode.node .black (.node .red gs gk go es) ek eo t) = true := by
      rw [nRR_node_iff]
      refine ⟨fun hh => Colour.noConfusion hh, ?_, hnrr⟩
      rw [nRR_node_iff]
      exact ⟨fun _ => ⟨hu, hese⟩, hnsg, hnse⟩
    constructor
    · apply nRR_blacken
      rw [nRR_plug_iff]
      exact ⟨hco2, hTn, fun _ => rfl⟩
    · apply bhF_blacken
      rw [bhF_plug, hT]
      exact hcbh3
  | case10 e hc ge rest2 hd hu he =>
    intro h hco hlb hred hnrr hbh hcbh
    simp [isRed] at hred
  | case11 e hc ge rest2 hd hu he tc tl tk toid tr =>
    intro h hco hlb hred hnrr hbh hcbh
    obtain ⟨hnse, hcre, hnsg, hcrg, hco2⟩ := hco
    have hge : ge.colour = .black := (hcre hc).2
    have hese : isRed e.sib = false := (hcre hc).1
    obtain ⟨hbse, hcbh2⟩ := (ctxBH_cons_isSome _ _ _).1 hcbh
    rw [hc] at hcbh2
    simp only [cw, Nat.add_zero] at hcbh2
    obtain ⟨hbsg, hcbh3⟩ := (ctxBH_cons_isSome _ _ _).1 hcbh2
    rw [hge] at hcbh3
    simp only [cw] at hcbh3
    rw [Bool.not_eq_true] at hu
    have htc : tc = .red := by
      cases tc with
      | red => rfl
      | black => simp [isRed] at hred
    subst htc
    have hch := (nRR_node_iff _ _ _ _ _).1 hnrr
    obtain ⟨hchn, hnl, hnr2⟩ := hch
    obtain ⟨hltl, hltr⟩ := hchn rfl
    obtain ⟨hbl, hbr⟩ := bhF_node_red_elim _ _ _ _ h hbh
    obtain ⟨ed, ec, ek, eo, es⟩ := e
    obtain ⟨gd, gc, gk, go, gs⟩ := ge
    simp only [PathEntry.colour, PathEntry.dir, PathEntry.sib] at hc hd he hge hu hbse hbsg hese
    subst hc; subst hd; subst hge; subst he
    simp only [RtlpRbTreeFixupInsert, hu, Bool.false_eq_true, if_false]
    have hT : bhF (RbNode.node .black (.node .red gs gk go tl) tk toid
        (.node .red tr ek eo es)) = some (h + 1) :=
      bhF_node_black_intro _ _ _ _ h (bhF_node_red_intro _ _ _ _ h hbsg hbl)
        (bhF_node_red_intro _ _ _ _ h hbr hbse)
    have hTn : nRR (RbNode.node .black (.node .red gs gk go tl) tk toid
        (.node .red tr ek eo es)) = true := by
      rw [nRR_node_iff]
      refine ⟨fun hh => Colour.noConfusion hh, ?_, ?_⟩
      · rw [nRR_node_iff]
        exact ⟨fun _ => ⟨hu, hltl⟩, hnsg, hnl⟩
      · rw [nRR_node_iff]
        exact ⟨fun _ => ⟨hltr, hese⟩, hnr2, hnse⟩
    constructor
    · apply nRR_blacken
      rw [nRR_plug_iff]
      exact ⟨hco2, hTn, fun _ => rfl⟩
    · apply bhF_blacken
      rw [bhF_plug, hT]
      exact hcbh3

theorem insert_preserves_sorted {α : Type} [LinearOrder α] (st : RB_TREE α) (Key : α)
    (ok : Bool) (hs : sortedP (inorder st.root)) :
    sortedP (inorder (RtlRbTreeInsertNode st Key ok).2.root) := by
  cases ok with
  | false => rw [insert_allocFail]; exact hs
  | true =>
    cases hdes : insertNodeDescend Key st.root [] with
    | inr o => rw [insert_inr st Key o hdes]; exact hs
    | inl p =>
      obtain ⟨A, B, hAB, hio, hbnd⟩ := insert_new_inorder st Key p hdes
      obtain ⟨hA, hB⟩ := hbnd hs
      rw [hio]
      rw [hAB] at hs
      simp only [sortedP, List.pairwise_append] at hs ⊢
      rw [List.pairwise_cons]
      refine ⟨hs.1, ⟨hB, hs.2.1⟩, ?_⟩
      intro a ha b hbm
      rcases List.mem_cons.1 hbm with hbm | hbm
      · subst hbm; exact hA a ha
      · exact lt_trans (hA a ha) (hB b hbm)

/-- Full red-black validity is preserved by a completed Insert (any
allocation outcome; duplicate or new key). -/
theorem insert_preserves_valid {α : Type} [LinearOrder α] (st : RB_TREE α) (Key : α)
    (ok : Bool) (hv : RBValid st.root) :
    RBValid (RtlRbTreeInsertNode st Key ok).2.root := by
  obtain ⟨hb, hn, hh, hs⟩ := hv
  cases ok with
  | false => rw [insert_allocFail]; exact ⟨hb, hn, hh, hs⟩
  | true =>
    cases hdes : insertNodeDescend Key st.root [] with
    | inr o => rw [insert_inr st Key o hdes]; exact ⟨hb, hn, hh, hs⟩
    | inl p =>
      have hplug : plug p .nil = st.root :=
        insertNodeDescend_inl_plug Key st.root [] p hdes
      have hco : ctxOK p := by
        have := hn
        rw [← hplug, nRR_plug_iff] at this
        exact this.1
      have hlb : lastBlack p := lastBlack_of_rootBlack p .nil (by rw [hplug]; exact hb)
      have hcbh : (ctxBH p 0).isSome = true := by
        rw [← hplug, bhF_plug] at hh
        simpa [bhF] using hh
      have hnew : bhF (RbNode.node .red .nil Key st.next_oid .nil : RbNode α) = some 0 := by
        simp [bhF, cw]
      have hres := fixupInsert_valid p (.node .red .nil Key st.next_oid .nil) 0 hco hlb
        (by simp [isRed]) (by simp [nRR]) hnew hcbh
      rw [insert_inl st Key p hdes]
      refine ⟨?_, hres.1, hres.2, ?_⟩
      · exact fixupInsert_rootBlack p _
      · have := insert_preserves_sorted st Key true hs
        rw [insert_inl st Key p hdes] at this
        exact this

theorem fixupDelete_of_red {α : Type} (p : ZPath α) (t : RbNode α)
    (h : isRed t = true) : RtlpRbTreeFixupDelete p t = plug p (blacken t) := by
  cases p with
  | nil =>
    rw [RtlpRbTreeFixupDelete, plug]
  | cons e q =>
    rw [RtlpRbTreeFixupDelete, if_pos h]

theorem bhF_node_elim {α : Type} (c : Colour) (l : RbNode α) (k : α) (o : Nat)
    (r : RbNode α) (n : Nat) (h : bhF (.node c l k o r) = some n) :
    ∃ m, bhF l = some m ∧ bhF r = some m ∧ n = m + cw c := by
  rw [bhF] at h
  cases hl : bhF l with
  | none => rw [hl] at h; cases hr : bhF r <;> rw [hr] at h <;> simp at h
  | some a =>
    rw [hl] at h
    cases hr : bhF r with
    | none => rw [hr] at h; simp at h
    | some b =>
      rw [hr] at h
      dsimp only at h
      by_cases hab : a = b
      · subst hab
        rw [if_pos rfl] at h
        simp at h
        exact ⟨a, rfl, rfl, h.symm⟩
      · rw [if_neg hab] at h
        simp at h

theorem delete_root_left_nil {α : Type} [LinearOrder α] (st : RB_TREE α) (Key : α)
    (p : ZPath α) (tc : Colour) (tk : α) (toid : Nat) (tr : RbNode α)
    (hf : RtlpRbTreeFindNode Key st.root [] = some (p, tc, .nil, tk, toid, tr)) :
    (RtlRbTreeDeleteNode st Key).root =
      if tc = .black ∧ tr ≠ .nil then RtlpRbTreeFixupDelete p tr else plug p tr := by
  rw [RtlRbTreeDeleteNode, hf]
  simp

theorem delete_root_right_nil {α : Type} [LinearOrder α] (st : RB_TREE α) (Key : α)
    (p : ZPath α) (tc : Colour) (tl : RbNode α) (tk : α) (toid : Nat)
    (h1 : tl ≠ .nil)
    (hf : RtlpRbTreeFindNode Key st.root [] = some (p, tc, tl, tk, toid, .nil)) :
    (RtlRbTreeDeleteNode st Key).root =
      if tc = .black ∧ tl ≠ .nil then RtlpRbTreeFixupDelete p tl else plug p tl := by
  rw [RtlRbTreeDeleteNode, hf]
  simp [h1]

theorem delete_root_two {α : Type} [LinearOrder α] (st : RB_TREE α) (Key : α)
    (p : ZPath α) (tc : Colour) (tl : RbNode α) (tk : α) (toid : Nat)
    (rc : Colour) (rl : RbNode α) (rk : α) (ro : Nat) (rr : RbNode α)
    (sp : ZPath α) (sc : Colour) (sk : α) (so : Nat) (sr : RbNode α)
    (h1 : tl ≠ .nil)
    (hf : RtlpRbTreeFindNode Key st.root [] =
      some (p, tc, tl, tk, toid, .node rc rl rk ro rr))
    (hmin : RtlpRbTreeMinimum rc rl rk ro rr [] = (sp, sc, sk, so, sr)) :
    (RtlRbTreeDeleteNode st Key).root =
      if sc = .black ∧ sr ≠ .nil
      then RtlpRbTreeFixupDelete (sp ++ ⟨.right, tc, sk, so, tl⟩ :: p) sr
      else plug p (.node tc tl sk so (plug sp sr)) := by
  rw [RtlRbTreeDeleteNode, hf]
  simp [h1, hmin]

set_option maxHeartbeats 2000000 in
/-- A completed Delete on a tree satisfying the colour and black-height
invariants leaves no red-red edge: on such a tree the deletion fix-up, when
invoked, always receives a red replacement child (so its loop never runs and
it simply repaints the child black), and every transplant preserves the
colour facts. -/
theorem delete_preserves_nRR {α : Type} [LinearOrder α] (st : RB_TREE α) (Key : α)
    (hn : nRR st.root = true) (hh : (bhF st.root).isSome = true) :
    nRR (RtlRbTreeDeleteNode st Key).root = true := by
  cases hf : RtlpRbTreeFindNode Key st.root [] with
  | none => rw [delete_notfound st Key hf]; exact hn
  | some res =>
    obtain ⟨p, tc, tl, tk, toid, tr⟩ := res
    obtain ⟨hk, hplug⟩ := findNode_some Key st.root [] p tc tl tk toid tr hf
    rw [plug] at hplug
    have hn0 : nRR (plug p (.node tc tl tk toid tr)) = true := by rw [hplug]; exact hn
    have hFall := (nRR_plug_iff p (.node tc tl tk toid tr)).1 hn0
    obtain ⟨hcoF, hnF, hheadF⟩ := hFall
    obtain ⟨hredF, hnl, hnr⟩ := (nRR_node_iff tc tl tk toid tr).1 hnF
    have hhF : ∃ n, bhF (RbNode.node tc tl tk toid tr) = some n := by
      rw [← hplug, bhF_plug] at hh
      cases hbf : bhF (RbNode.node tc tl tk toid tr) with
      | none => rw [hbf] at hh; simp at hh
      | some n => exact ⟨n, rfl⟩
    obtain ⟨n, hbF⟩ := hhF
    obtain ⟨m, hbl, hbr, hnm⟩ := bhF_node_elim tc tl tk toid tr n hbF
    by_cases h1 : tl = .nil
    · subst h1
      have hm0 : m = 0 := by
        rw [bhF] at hbl
        exact (Option.some.injEq _ _ ▸ hbl).symm ▸ rfl
      subst hm0
      rw [delete_root_left_nil st Key p tc tk toid tr hf]
      by_cases h2 : tc = .black ∧ tr ≠ .nil
      · have htrred : isRed tr = true := by
          cases hr : isRed tr with
          | false => exact absurd (bh0_structure tr hbr hr) h2.2
          | true => rfl
        rw [if_pos h2, fixupDelete_of_red _ _ htrred]
        refine nRR_plug_mono p _ _ hn0 (nRR_blacken _ hnr) ?_
        intro habs
        rw [isRed_blacken] at habs
        exact Bool.noConfusion habs
      · have htr : tr = .nil := by
          cases htc : tc with
          | red =>
            have := (hredF htc).2
            exact bh0_structure tr hbr this
          | black =>
            by_contra habs
            exact h2 ⟨htc, habs⟩
        subst htr
        rw [if_neg h2]
        refine nRR_plug_mono p _ _ hn0 (by rfl) ?_
        intro habs
        exact Bool.noConfusion habs
    · by_cases h2 : tr = .nil
      · subst h2
        have hm0 : m = 0 := by
          rw [bhF] at hbr
          exact (Option.some.injEq _ _ ▸ hbr).symm ▸ rfl
        subst hm0
        rw [delete_root_right_nil st Key p tc tl tk toid h1 hf]
        by_cases h3 : tc = .black ∧ tl ≠ .nil
        · have htlred : isRed tl = true := by
            cases hr : isRed tl with
            | false => exact absurd (bh0_structure tl hbl hr) h1
            | true => rfl
          rw [if_pos h3, fixupDelete_of_red _ _ htlred]
          refine nRR_plug_mono p _ _ hn0 (nRR_blacken _ hnl) ?_
          intro habs
          rw [isRed_blacken] at habs
          exact Bool.noConfusion habs
        · exfalso
          have htc : tc = .red := by
            cases htc : tc with
            | red => rfl
            | black => exact absurd ⟨htc, h1⟩ h3
          exact h1 (bh0_structure tl hbl (hredF htc).1)
      · match tr, h2 with
        | .node rc rl rk ro rr, _ =>
          rcases hmin : RtlpRbTreeMinimum rc rl rk ro rr [] with ⟨sp, sc, sk, so, sr⟩
          obtain ⟨hmin1, hmin2⟩ := minimum_decomp rl rc rk ro rr [] sp sc sk so sr hmin
          rw [plug] at hmin1
          rw [delete_root_two st Key p tc tl tk toid rc rl rk ro rr sp sc sk so sr h1 hf hmin]
          -- facts about the successor subtree
          have hntr : nRR (plug sp (.node sc .nil sk so sr)) = true := by
            rw [hmin1]; exact hnr
          obtain ⟨hcoS, hnS, hheadS⟩ := (nRR_plug_iff sp _).1 hntr
          obtain ⟨hredS, _, hnsr⟩ := (nRR_node_iff sc .nil sk so sr).1 hnS
          have hbS : ∃ q, bhF (RbNode.node sc .nil sk so sr) = some q := by
            have : bhF (plug sp (.node sc .nil sk so sr)) = some m := by rw [hmin1]; exact hbr
            rw [bhF_plug] at this
            cases hbs : bhF (RbNode.node sc .nil sk so sr) with
            | none => rw [hbs] at this; simp at this
            | some q => exact ⟨q, rfl⟩
          obtain ⟨q, hbS2⟩ := hbS
          obtain ⟨m2, hm2l, hm2r, hqm⟩ := bhF_node_elim sc .nil sk so sr q hbS2
          have hm20 : m2 = 0 := by
            rw [bhF] at hm2l
            exact (Option.some.injEq _ _ ▸ hm2l).symm ▸ rfl
          subst hm20
          -- the new right subtree of the node occupying the target's slot
          have htr2 : ∀ (X : RbNode α), nRR X = true → isRed X = false →
              nRR (plug sp X) = true := by
            intro X hX hXr
            refine nRR_plug_mono sp _ _ hntr hX ?_
            intro habs
            rw [hXr] at habs
            exact Bool.noConfusion habs
          have hroot2 : ∀ (X : RbNode α), isRed X = false →
              (tc = .red → isRed (plug sp X) = false) := by
            intro X hXr htc
            cases hsp : sp with
            | nil => rw [plug]; exact hXr
            | cons f q2 =>
              rw [← hsp]
              rw [isRed_false_iff]
              rw [rootColour_plug_indep sp (by rw [hsp]; simp) X (.node sc .nil sk so sr)]
              rw [hmin1, ← isRed_false_iff]
              exact (hredF htc).2
          have hmono2 : ∀ (Y : RbNode α), nRR Y = true → isRed Y = false →
              nRR (plug p (.node tc tl sk so (plug sp Y))) = true := by
            intro Y hY hYr
            refine nRR_plug_mono p _ _ hn0 ?_ ?_
            · rw [nRR_node_iff]
              refine ⟨?_, hnl, htr2 Y hY hYr⟩
              intro htc
              exact ⟨(hredF htc).1, hroot2 Y hYr htc⟩
            · intro habs
              rw [isRed_true_iff] at habs ⊢
              exact habs
          by_cases h4 : sc = .black ∧ sr ≠ .nil
          · have hsrred : isRed sr = true := by
              cases hr : isRed sr with
              | false => exact absurd (bh0_structure sr hm2r hr) h4.2
              | true => rfl
            rw [if_pos h4, fixupDelete_of_red _ _ hsrred]
            rw [plug_append, plug]
            have hlink : link (⟨.right, tc, sk, so, tl⟩ : PathEntry α) tc
                (plug sp (blacken sr)) = .node tc tl sk so (plug sp (blacken sr)) := rfl
            rw [hlink]
            exact hmono2 (blacken sr) (nRR_blacken _ hnsr) (isRed_blacken _)
          · have hsr : sr = .nil := by
              cases hsc : sc with
              | red => exact bh0_structure sr hm2r (hredS hsc).2
              | black =>
                by_contra habs
                exact h4 ⟨hsc, habs⟩
            subst hsr
            rw [if_neg h4]
            exact hmono2 .nil (by rfl) (by rfl)

theorem delete_preserves_rootBlack {α : Type} [LinearOrder α] (st : RB_TREE α) (Key : α)
    (hb : rootColour st.root = .black) :
    rootColour (RtlRbTreeDeleteNode st Key).root = .black := by
  cases hf : RtlpRbTreeFindNode Key st.root [] with
  | none => rw [delete_notfound st Key hf]; exact hb
  | some res =>
    obtain ⟨p, tc, tl, tk, toid, tr⟩ := res
    exact (delete_found st Key p tc tl tk toid tr hf).2.2.2.2.2 hb

/-- C1: for every completed Insert or Delete on a tree satisfying the
red-black invariants beforehand, the resulting tree's root is black whenever
the tree is non-empty (null roots count as black) and no red node has a red
parent. -/
theorem claim1_colour_invariants {α : Type} [LinearOrder α] (st : RB_TREE α)
    (k1 k2 : α) (ok : Bool) (hv : RBValid st.root) :
    (rootColour (RtlRbTreeInsertNode st k1 ok).2.root = .black ∧
        nRR (RtlRbTreeInsertNode st k1 ok).2.root = true) ∧
      (rootColour (RtlRbTreeDeleteNode st k2).root = .black ∧
        nRR (RtlRbTreeDeleteNode st k2).root = true) := by
  have hins := insert_preserves_valid st k1 ok hv
  obtain ⟨hb, hn, hh, hs⟩ := hv
  exact ⟨⟨hins.1, hins.2.1⟩,
    ⟨delete_preserves_rootBlack st k2 hb, delete_preserves_nRR st k2 hn hh⟩⟩

/-- Witness for C1 at a concrete valid tree, insert key and delete key. -/
theorem claim1_witness :
    (rootColour (RtlRbTreeInsertNode (runOps [RbOp.ins (2 : Nat) true, .ins 1 true,
          .ins 3 true]) 4 true).2.root = .black ∧
        nRR (RtlRbTreeInsertNode (runOps [RbOp.ins (2 : Nat) true, .ins 1 true,
          .ins 3 true]) 4 true).2.root = true) ∧
      (rootColour (RtlRbTreeDeleteNode (runOps [RbOp.ins (2 : Nat) true, .ins 1 true,
          .ins 3 true]) 1).root = .black ∧
        nRR (RtlRbTreeDeleteNode (runOps [RbOp.ins (2 : Nat) true, .ins 1 true,
          .ins 3 true]) 1).root = true) :=
  claim1_colour_invariants (runOps [RbOp.ins (2 : Nat) true, .ins 1 true, .ins 3 true])
    4 1 true (by refine ⟨?_, ?_, ?_, ?_⟩ <;> decide)

/-- C4: for every completed Insert (successful allocation or not, duplicate
or new key) into a tree satisfying the red-black invariants beforehand, the
black-height is uniform: every path from any given node of the resulting tree
to its null descendants carries the same number of black nodes. -/
theorem claim4_insert_black_height {α : Type} [LinearOrder α] (st : RB_TREE α)
    (Key : α) (ok : Bool) (hv : RBValid st.root) :
    (bhF (RtlRbTreeInsertNode st Key ok).2.root).isSome = true :=
  (insert_preserves_valid st Key ok hv).2.2.1

/-- Witness for C4 at a concrete valid tree. -/
theorem claim4_witness :
    (bhF (RtlRbTreeInsertNode (runOps [RbOp.ins (2 : Nat) true, .ins 1 true,
        .ins 3 true]) 4 true).2.root).isSome = true :=
  claim4_insert_black_height (runOps [RbOp.ins (2 : Nat) true, .ins 1 true, .ins 3 true])
    4 true (by refine ⟨?_, ?_, ?_, ?_⟩ <;> decide)

/-- C3: deleting a present key whose node has two children excises the
in-order successor — the leftmost node of the right subtree, which is the
first entry of the right subtree's in-order traversal — records the
successor's original colour `sc` as the excised colour, moves the successor
node into the target's slot where it takes the target's colour `tc` and left
subtree, and invokes the deletion fix-up exactly when `sc` is black and the
successor's right child (the surviving replacement) is non-null, skipping it
when that child is absent. -/
theorem claim3_delete_two_children {α : Type} [LinearOrder α] (st : RB_TREE α) (Key : α)
    (p : ZPath α) (tc : Colour) (tl : RbNode α) (tk : α) (toid : Nat)
    (rc : Colour) (rl : RbNode α) (rk : α) (ro : Nat) (rr : RbNode α)
    (sp : ZPath α) (sc : Colour) (sk : α) (so : Nat) (sr : RbNode α)
    (hf : RtlpRbTreeFindNode Key st.root [] =
      some (p, tc, tl, tk, toid, .node rc rl rk ro rr))
    (h1 : tl ≠ .nil)
    (hmin : RtlpRbTreeMinimum rc rl rk ro rr [] = (sp, sc, sk, so, sr)) :
    inorder (RbNode.node rc rl rk ro rr) = (sk, so) :: (inorder sr ++ plugR sp) ∧
      (RtlRbTreeDeleteNode st Key).root =
        (if sc = .black ∧ sr ≠ .nil
         then RtlpRbTreeFixupDelete (sp ++ ⟨.right, tc, sk, so, tl⟩ :: p) sr
         else plug p (.node tc tl sk so (plug sp sr))) ∧
      (¬(sc = .black ∧ sr ≠ .nil) →
        (RtlRbTreeDeleteNode st Key).root = plug p (.node tc tl sk so (plug sp sr))) := by
  obtain ⟨hmin1, hmin2⟩ := minimum_decomp rl rc rk ro rr [] sp sc sk so sr hmin
  rw [plug] at hmin1
  simp only [plugL] at hmin2
  refine ⟨?_, ?_, ?_⟩
  · rw [← hmin1, inorder_plug, hmin2]
    simp [inorder]
  · exact delete_root_two st Key p tc tl tk toid rc rl rk ro rr sp sc sk so sr h1 hf hmin
  · intro h4
    rw [delete_root_two st Key p tc tl tk toid rc rl rk ro rr sp sc sk so sr h1 hf hmin]
    rw [if_neg h4]

/-- Witness for C3: deleting the two-children root of the tree built from
2, 1, 3 excises the red successor 3 (no right child, fix-up skipped). -/
theorem claim3_witness :
    inorder (RbNode.node Colour.red RbNode.nil (3 : Nat) 2 RbNode.nil) =
        ((3 : Nat), 2) :: (inorder (RbNode.nil : RbNode Nat) ++ plugR ([] : ZPath Nat)) ∧
      (RtlRbTreeDeleteNode (runOps [RbOp.ins (2 : Nat) true, .ins 1 true, .ins 3 true])
          2).root =
        (if Colour.red = .black ∧ (RbNode.nil : RbNode Nat) ≠ .nil
         then RtlpRbTreeFixupDelete
           (([] : ZPath Nat) ++ ⟨.right, Colour.black, 3, 2,
             RbNode.node Colour.red RbNode.nil 1 1 RbNode.nil⟩ :: ([] : ZPath Nat)) RbNode.nil
         else plug ([] : ZPath Nat)
           (.node Colour.black (RbNode.node Colour.red RbNode.nil 1 1 RbNode.nil) 3 2
             (plug ([] : ZPath Nat) RbNode.nil))) ∧
      (¬(Colour.red = .black ∧ (RbNode.nil : RbNode Nat) ≠ .nil) →
        (RtlRbTreeDeleteNode (runOps [RbOp.ins (2 : Nat) true, .ins 1 true, .ins 3 true])
            2).root =
          plug ([] : ZPath Nat)
            (.node Colour.black (RbNode.node Colour.red RbNode.nil 1 1 RbNode.nil) 3 2
              (plug ([] : ZPath Nat) RbNode.nil))) :=
  claim3_delete_two_children (runOps [RbOp.ins (2 : Nat) true, .ins 1 true, .ins 3 true])
    2 [] Colour.black (RbNode.node Colour.red RbNode.nil 1 1 RbNode.nil) 2 0
    Colour.red RbNode.nil 3 2 RbNode.nil [] Colour.red 3 2 RbNode.nil
    (by decide) (by decide) (by decide)
